import Mathlib

/-!
Verification of the lab-data consolidation core of the AI-Oncologists
repository (`Backend/Utils/Tabs/lab_postprocessor.py`), via a shallow
embedding in Lean 4.

Modelling conventions:
* Python scalar values that can sit in a biomarker field (`value`, `unit`,
  `status`, `reference_range`) are modelled by `PyVal`: Python `None`,
  strings, and numbers.  Python compares `int`/`float` with `==` across the
  two numeric types, so a single `Rat`-valued constructor models both.
* The `date` field is modelled by `DateField`, which distinguishes a
  missing key (`dict.get("date", default)` returns the default) from an
  explicit `None` value and from a string, because
  `merge_biomarker_data` uses `entry.get("date", "")`, making the three
  cases observable.
* Python dicts used as insertion-ordered maps (`seen` in
  `build_trend_from_values`, the panel dicts) are modelled as association
  lists: a new key is appended at the end, updating an existing key keeps
  its position.
* `list.sort(key=...)` is a stable sort.  The ascending trend sort always
  receives string keys and is modelled by a pure stable insertion sort.
  The descending sort in `merge_biomarker_data` can receive `None` keys
  (a record whose `date` key holds `None`), in which case CPython raises
  `TypeError`; it is therefore modelled in `Option`, returning
  `Option.none` exactly when a comparison touches a `None` key, which for
  CPython's sort happens iff the list has at least two elements and some
  key is `None` (every element of a list of length >= 2 takes part in at
  least one comparison).
* The Gemini call in `refine_clinical_interpretations_with_ai` is an
  external effect; its outcome is passed in as an explicit oracle
  argument: `some l` models a response that parsed as a JSON list of
  strings, `Option.none` models an exception or an invalid-format
  response (both of which make the code fall back to the raw
  interpretations).
-/

namespace LabPostprocessor

/-- Lexicographic strict comparison of character lists by code point,
exactly Python's `<` on strings (Python compares strings code point by
code point, a strict prefix being smaller). -/
def lexLtb : List Char → List Char → Bool
  | [], [] => false
  | [], _ :: _ => true
  | _ :: _, [] => false
  | a :: as, b :: bs =>
    if a.toNat < b.toNat then true
    else if b.toNat < a.toNat then false
    else lexLtb as bs

/-- Python's `a <= b` on strings (`not (b < a)`). -/
def strLeb (a b : String) : Bool := ! lexLtb b.data a.data

/-- ASCII lowering of one character (`str.lower` restricted to ASCII,
which is all the source's interpretation strings use). -/
def lowerChar (c : Char) : Char :=
  if 65 ≤ c.toNat ∧ c.toNat ≤ 90 then Char.ofNat (c.toNat + 32) else c

/-- Python `str.lower`, modelled for ASCII text. -/
def pyLower (s : String) : String := ⟨s.toList.map lowerChar⟩

/-- Python `str.strip()`: remove leading and trailing whitespace. -/
def pyStrip (s : String) : String :=
  ⟨(((s.toList.dropWhile Char.isWhitespace).reverse).dropWhile
      Char.isWhitespace).reverse⟩

/-- A Python value that can appear in a biomarker field: `None`, a string,
or a number (`int` and `float` collapse into `Rat`, matching Python's
cross-type `==` on numbers). -/
inductive PyVal where
  | none : PyVal
  | str : String → PyVal
  | num : Rat → PyVal
deriving DecidableEq, Repr

/-- The `date` entry of a biomarker dict: key absent, key present with
`None`, or key present with a string (the data model allows only
`string | null` dates). -/
inductive DateField where
  | miss : DateField
  | null : DateField
  | str : String → DateField
deriving DecidableEq, Repr

/-- A flat biomarker record `{value, unit, date, status, reference_range,
source_context}`.  Fields other than `date`/`source_context` are accessed
only through plain `dict.get(k)`, so an absent key is identified with
`None`.  `source_context` is accessed through `get("source_context", "")`,
so an absent key is identified with `""`. -/
structure BiomarkerRecord where
  value : PyVal
  unit : PyVal
  date : DateField
  status : PyVal
  reference_range : PyVal
  source_context : String
deriving DecidableEq, Repr

/-- One biomarker entry as received by the consolidator: either the new
flat shape, or the legacy nested shape `{"current": {...}, "trend": [...]}`
(detected in the source by `"current" in entry`). -/
inductive BiomarkerEntry where
  | flat : BiomarkerRecord → BiomarkerEntry
  | nested : BiomarkerRecord → List BiomarkerRecord → BiomarkerEntry
deriving DecidableEq, Repr

/-- A deduplicated trend point `{date, value, status, source_context}` as
built by `build_trend_from_values`. -/
structure TrendPoint where
  date : String
  value : PyVal
  status : PyVal
  source_context : String
deriving DecidableEq, Repr

/-- The `current` sub-dict produced by `merge_biomarker_data`:
`{value, unit, date, status, reference_range}`.  `date` is `Option String`
because it is produced by `most_recent_data.get("date")` (Python `None`
for a missing or null date). -/
structure CurrentShape where
  value : PyVal
  unit : PyVal
  date : Option String
  status : PyVal
  reference_range : PyVal
deriving DecidableEq, Repr

/-- Output of `merge_biomarker_data`: `{"current": {...}, "trend": [...]}`. -/
structure ConsolidatedBiomarker where
  current : CurrentShape
  trend : List TrendPoint
deriving DecidableEq, Repr

/-- The record a consumer reads from an entry: the nested `current` dict
in the legacy shape, the entry itself in the flat shape (the
`data = entry.get("current", {})` / `data = entry` branches). -/
def dataOf : BiomarkerEntry → BiomarkerRecord
  | .flat r => r
  | .nested cur _ => cur

/-- `record.get("date")`: Python `None` for a missing key or a null value. -/
def getDate : DateField → Option String
  | .miss => Option.none
  | .null => Option.none
  | .str s => some s

/-- `record.get("date", "")`: the sort key used by `merge_biomarker_data`.
A missing key defaults to `""`; a null value stays Python `None`
(modelled `Option.none`), which poisons the sort. -/
def dateSortKey : DateField → Option String
  | .miss => some ""
  | .null => Option.none
  | .str s => some s

/-- Sort key of one entry in `merge_biomarker_data`'s descending sort. -/
def sortKey (e : BiomarkerEntry) : Option String :=
  dateSortKey (dataOf e).date

/-- `is_empty_biomarker`: the effective `value` is `"NA"`, `None` or `""`. -/
def is_empty_biomarker (b : BiomarkerEntry) : Bool :=
  let v := (dataOf b).value
  decide (v = PyVal.str "NA" ∨ v = PyVal.none ∨ v = PyVal.str "")

/-- Dedup key of the `seen` dict in `build_trend_from_values`. -/
abbrev TrendKey := String × PyVal

/-- The `(date, value)` key an entry contributes to deduplication, or
`Option.none` when the entry is skipped.  Mirrors the source's skip test
`date == "NA" or value == "NA" or date is None or value is None or
value == ""` (note: a date equal to `""` is NOT skipped). -/
def trendKey? (e : BiomarkerEntry) : Option TrendKey :=
  match getDate (dataOf e).date, (dataOf e).value with
  | Option.none, _ => Option.none
  | some d, v =>
    if d = "NA" ∨ v = PyVal.str "NA" ∨ v = PyVal.none ∨ v = PyVal.str "" then
      Option.none
    else
      some (d, v)

/-- The trend point stored for an entry (`seen[key] = {...}`). -/
def mkPoint (e : BiomarkerEntry) (d : String) : TrendPoint :=
  ⟨d, (dataOf e).value, (dataOf e).status, (dataOf e).source_context⟩

/-- First-match lookup in the insertion-ordered `seen` dict. -/
def lookupSeen (k : TrendKey) : List (TrendKey × TrendPoint) → Option TrendPoint
  | [] => Option.none
  | (k', p) :: rest => if k' = k then some p else lookupSeen k rest

/-- In-place update of the `seen` dict (Python dicts keep the original
insertion position of an updated key). -/
def updateSeen (k : TrendKey) (v : TrendPoint) :
    List (TrendKey × TrendPoint) → List (TrendKey × TrendPoint)
  | [] => []
  | (k', p) :: rest =>
    if k' = k then (k', v) :: rest else (k', p) :: updateSeen k v rest

/-- One iteration of the aggregation loop of `build_trend_from_values`:
skip the entry, insert a fresh `(date, value)` key at the end, or replace
the stored point when the new `source_context` is strictly longer. -/
def trendStep (s : List (TrendKey × TrendPoint)) (e : BiomarkerEntry) :
    List (TrendKey × TrendPoint) :=
  match trendKey? e with
  | Option.none => s
  | some k =>
    match lookupSeen k s with
    | Option.none => s ++ [(k, mkPoint e k.1)]
    | some old =>
      if old.source_context.length < (dataOf e).source_context.length then
        updateSeen k (mkPoint e k.1) s
      else
        s

/-- Stable insertion step of an ascending sort by a string key: the new
element passes every element whose key is `≤` its own, so equal keys keep
their original relative order, matching Python's stable `list.sort`. -/
def insertAscBy {α : Type} (key : α → String) (x : α) : List α → List α
  | [] => [x]
  | y :: ys =>
    if strLeb (key y) (key x) then y :: insertAscBy key x ys else x :: y :: ys

/-- Stable ascending sort by a string key (extensionally equal to
Python's stable `list.sort(key=...)` with string keys). -/
def sortAscBy {α : Type} (key : α → String) (l : List α) : List α :=
  l.foldl (fun acc x => insertAscBy key x acc) []

/-- `build_trend_from_values`: aggregate entries into the `seen` dict,
take its values, and sort them ascending by date. -/
def build_trend_from_values (entries : List BiomarkerEntry) : List TrendPoint :=
  sortAscBy (fun p => p.date) ((entries.foldl trendStep []).map Prod.snd)

/-- Extract a key for a comparison in the descending sort; a Python
`None` key raises `TypeError` (modelled `Option.none`). -/
def keyVal : Option String → Option String
  | some s => some s
  | Option.none => Option.none

/-- Stable insertion step of the descending sort of
`merge_biomarker_data`, propagating the `TypeError` raised when a
compared key is Python `None`. -/
def insertDescBy {α : Type} (key : α → Option String) (x : α) :
    List α → Option (List α)
  | [] => some [x]
  | y :: ys => do
    let kx ← keyVal (key x)
    let ky ← keyVal (key y)
    if strLeb kx ky then
      let r ← insertDescBy key x ys
      some (y :: r)
    else
      some (x :: y :: ys)

/-- Stable descending sort by an optional string key
(`list.sort(key=..., reverse=True)`), failing like CPython when a
comparison touches a `None` key. -/
def sortDescBy {α : Type} (key : α → Option String) (l : List α) :
    Option (List α) :=
  l.foldlM (fun acc x => insertDescBy key x acc) []

/-- Pure stable insertion step of a descending sort by a string key. -/
def insertDescP {α : Type} (key : α → String) (x : α) : List α → List α
  | [] => [x]
  | y :: ys =>
    if strLeb (key x) (key y) then y :: insertDescP key x ys else x :: y :: ys

/-- Pure stable descending sort by a string key. -/
def sortDescP {α : Type} (key : α → String) (l : List α) : List α :=
  l.foldl (fun acc x => insertDescP key x acc) []

/-- The canonical empty `current` shape returned when no valid record
exists. -/
def emptyCurrent : CurrentShape :=
  ⟨PyVal.none, PyVal.none, Option.none, PyVal.none, PyVal.none⟩

/-- The `current` dict built from the date-maximal record
(`most_recent_data.get(...)` for each field). -/
def mkCurrent (r : BiomarkerRecord) : CurrentShape :=
  ⟨r.value, r.unit, getDate r.date, r.status, r.reference_range⟩

/-- `merge_biomarker_data`: filter empty entries, build the trend, sort
the valid entries descending by date and take the head as `current`.
Returns `Option.none` when the descending sort raises `TypeError`. -/
def merge_biomarker_data (l : List BiomarkerEntry) :
    Option ConsolidatedBiomarker :=
  let valid := l.filter (fun b => ! is_empty_biomarker b)
  if valid.isEmpty then
    some ⟨emptyCurrent, []⟩
  else do
    let trend := build_trend_from_values valid
    let sorted ← sortDescBy sortKey valid
    let current := match sorted with
      | [] => emptyCurrent
      | e :: _ => mkCurrent (dataOf e)
    some ⟨current, trend⟩

/-- A per-document panel dict: biomarker name → entry, insertion-ordered
with unique keys. -/
abbrev Panel := List (String × BiomarkerEntry)

/-- `biomarker_name in panel` / `panel[biomarker_name]`. -/
def lookupName (name : String) : Panel → Option BiomarkerEntry
  | [] => Option.none
  | (n, e) :: rest => if n = name then some e else lookupName name rest

/-- Collect one biomarker's entries across all panel dicts (dicts not
containing the name are skipped). -/
def collectEntries (panels : List Panel) (name : String) : List BiomarkerEntry :=
  panels.filterMap (fun p => lookupName name p)

/-- `consolidate_panel`: for each known name, collect its entries; merge
them when at least one was found, omit the name otherwise. -/
def consolidate_panel (panels : List Panel) :
    List String → Option (List (String × ConsolidatedBiomarker))
  | [] => some []
  | name :: rest =>
    let entries := collectEntries panels name
    if entries.isEmpty then
      consolidate_panel panels rest
    else do
      let m ← merge_biomarker_data entries
      let tail ← consolidate_panel panels rest
      some ((name, m) :: tail)

/-- `consolidate_clinical_interpretations`: flatten, strip, drop empty
strings, and deduplicate case-insensitively keeping the first
original-case occurrence.  (`str.strip`/`str.lower` are modelled by
`String.trim`/`String.toLower`, which agree on ASCII text.) -/
def consolidate_clinical_interpretations (ls : List (List String)) : List String :=
  let all := ls.foldl (fun acc l => acc ++ l) []
  (all.foldl
    (fun (acc : List String × List String) interp =>
      let c := pyStrip interp
      if c = "" then acc
      else if pyLower c ∈ acc.1 then acc
      else (acc.1 ++ [pyLower c], acc.2 ++ [c]))
    ([], [])).2

/-- `refine_clinical_interpretations_with_ai`, with the model call's
outcome supplied as `oracle`: `some l` is a response parsed as a JSON
list of strings (trimmed to 6 when longer), `Option.none` is an
exception or invalid-format response (fall back to the raw list). -/
def refine_clinical_interpretations_with_ai (raw : List String)
    (oracle : Option (List String)) : List String :=
  if raw.isEmpty then []
  else
    match oracle with
    | some l => if l.length > 6 then l.take 6 else l
    | Option.none => raw

/-- The value found under one of the three panel keys of a batch dict:
a list of panel dicts (new API structure), a single panel dict, or
anything else (including an absent key), which is skipped. -/
inductive PanelField where
  | list : List Panel → PanelField
  | dict : Panel → PanelField
  | other : PanelField
deriving DecidableEq, Repr

/-- The `clinical_interpretation` value of a batch dict: a list of
strings, or anything else (skipped). -/
inductive InterpField where
  | list : List String → InterpField
  | other : InterpField
deriving DecidableEq, Repr

/-- One batch dict of the raw input list. -/
structure Batch where
  tumor_markers : PanelField
  complete_blood_count : PanelField
  metabolic_panel : PanelField
  clinical_interpretation : InterpField
deriving DecidableEq, Repr

/-- The extraction loop over batches for one panel key: `extend` for a
list, `append` for a dict, skip otherwise. -/
def extractPanels (get : Batch → PanelField) (batches : List Batch) : List Panel :=
  batches.foldl
    (fun acc b =>
      match get b with
      | .list ps => acc ++ ps
      | .dict p => acc ++ [p]
      | .other => acc)
    []

/-- The extraction loop for `clinical_interpretation`. -/
def extractInterps (batches : List Batch) : List (List String) :=
  batches.foldl
    (fun acc b =>
      match b.clinical_interpretation with
      | .list l => acc ++ [l]
      | .other => acc)
    []

/-- Output shape of `postprocess_lab_data`. -/
structure PostResult where
  tumor_markers : List (String × ConsolidatedBiomarker)
  complete_blood_count : List (String × ConsolidatedBiomarker)
  metabolic_panel : List (String × ConsolidatedBiomarker)
  clinical_interpretation : List String
deriving DecidableEq, Repr

/-- `postprocess_lab_data` on an input list of batches.  `use_ai` is the
`use_ai_refinement` argument (default `True` in the source); `oracle` is
the outcome of the Gemini call, consulted only when `use_ai` is set and
the consolidated interpretations are nonempty. -/
def postprocess_lab_data (batches : List Batch) (use_ai : Bool)
    (oracle : Option (List String)) : Option PostResult := do
  let tm ← consolidate_panel (extractPanels Batch.tumor_markers batches)
    ["CEA", "NSE", "proGRP", "CYFRA_21_1"]
  let cbc ← consolidate_panel (extractPanels Batch.complete_blood_count batches)
    ["WBC", "Hemoglobin", "Platelets", "ANC"]
  let met ← consolidate_panel (extractPanels Batch.metabolic_panel batches)
    ["Creatinine", "ALT", "AST", "Total Bilirubin"]
  let interps := consolidate_clinical_interpretations (extractInterps batches)
  let refined :=
    if use_ai && ! interps.isEmpty then
      refine_clinical_interpretations_with_ai interps oracle
    else
      interps
  some ⟨tm, cbc, met, refined⟩

/-- Digit-string value, `Option.none` on a non-digit character. -/
def digitsVal (cs : List Char) : Option Nat :=
  cs.foldl
    (fun acc c =>
      match acc with
      | Option.none => Option.none
      | some n => if c.isDigit then some (n * 10 + (c.toNat - 48)) else Option.none)
    (some 0)

/-- Python `float(s)` on a string, modelled for plain decimal literals:
an optional sign, then digits with at most one decimal point and at least
one digit.  Any other string (e.g. `"Pending"`) fails to coerce. -/
def parseFloat? (s : String) : Option Rat :=
  let cs := s.toList
  let signed : Int × List Char :=
    match cs with
    | '-' :: r => (-1, r)
    | '+' :: r => (1, r)
    | r => (1, r)
  let intPart := signed.2.takeWhile Char.isDigit
  let after := signed.2.dropWhile Char.isDigit
  match after with
  | [] =>
    if intPart.isEmpty then Option.none
    else (digitsVal intPart).map (fun n => (signed.1 : Rat) * (n : Rat))
  | '.' :: fracCs =>
    if fracCs.all Char.isDigit && ! (intPart.isEmpty && fracCs.isEmpty) then
      match digitsVal intPart, digitsVal fracCs with
      | some ip, some fp =>
        some ((signed.1 : Rat) * ((ip : Rat) + (fp : Rat) / ((10 : Rat) ^ fracCs.length)))
      | _, _ => Option.none
    else
      Option.none
  | _ => Option.none

/-- Python `float(v)` on a trend value: numbers pass through, strings are
parsed, `None` raises `TypeError` (`Option.none`). -/
def pyFloat : PyVal → Option Rat
  | .num q => some q
  | .str s => parseFloat? s
  | .none => Option.none

/-- `calculate_trend_direction`: compare the last two trend values
numerically; a failed float coercion or a zero previous value yields
`"insufficient_data"`. -/
def calculate_trend_direction (trend : List TrendPoint) : String :=
  if trend.length < 2 then "insufficient_data"
  else
    match trend.reverse with
    | lastP :: prevP :: _ =>
      match pyFloat lastP.value, pyFloat prevP.value with
      | some lastV, some prevV =>
        if prevV ≠ 0 then
          if (lastV - prevV) / prevV * 100 > 5 then "increasing"
          else if (lastV - prevV) / prevV * 100 < -5 then "decreasing"
          else "stable"
        else "insufficient_data"
      | _, _ => "insufficient_data"
    | _ => "insufficient_data"

/-- The per-biomarker `current` sub-dict produced by `format_biomarker`. -/
structure FormattedCurrent where
  value : PyVal
  unit : PyVal
  date : Option String
  status : PyVal
  reference_range : PyVal
  is_abnormal : Bool
deriving DecidableEq, Repr

/-- The per-biomarker dict produced by `format_biomarker`.
`trend_direction` is a `PyVal` because the source stores Python `None`
when the trend has fewer than two points. -/
structure FormattedBiomarker where
  name : String
  has_data : Bool
  current : FormattedCurrent
  trend : List TrendPoint
  trend_direction : PyVal
deriving DecidableEq, Repr

/-- `format_biomarker` (inner helper of `format_for_ui`). -/
def format_biomarker (b : ConsolidatedBiomarker) (name : String) :
    FormattedBiomarker :=
  let c := b.current
  { name := name
    has_data :=
      ! decide (c.value = PyVal.none ∨ c.value = PyVal.str "NA" ∨ c.value = PyVal.str "")
    current :=
      ⟨c.value, c.unit, c.date, c.status, c.reference_range,
        decide (c.status = PyVal.str "High" ∨ c.status = PyVal.str "Low" ∨
          c.status = PyVal.str "Critical")⟩
    trend := b.trend
    trend_direction :=
      if b.trend.length ≥ 2 then PyVal.str (calculate_trend_direction b.trend)
      else PyVal.none }

/-- `get_most_recent_date`: collect every truthy, non-`"NA"` current
date, sort descending, take the first (`None` when there are none). -/
def get_most_recent_date (r : PostResult) : Option String :=
  let currents :=
    (r.tumor_markers ++ r.complete_blood_count ++ r.metabolic_panel).map
      (fun p => p.2.current)
  let dates := currents.filterMap
    (fun c =>
      match c.date with
      | some d => if d ≠ "" ∧ d ≠ "NA" then some d else Option.none
      | Option.none => Option.none)
  (sortDescP id dates).head?

/-- Output shape of `format_for_ui`. -/
structure UIResult where
  tumor_markers : List (String × FormattedBiomarker)
  complete_blood_count : List (String × FormattedBiomarker)
  metabolic_panel : List (String × FormattedBiomarker)
  clinical_interpretation : List String
  total_abnormal : Nat
  last_updated : Option String
deriving DecidableEq, Repr

/-- `format_for_ui` on the output of `postprocess_lab_data`. -/
def format_for_ui (r : PostResult) : UIResult :=
  let fmt := fun (l : List (String × ConsolidatedBiomarker)) =>
    l.map (fun p => (p.1, format_biomarker p.2 p.1))
  { tumor_markers := fmt r.tumor_markers
    complete_blood_count := fmt r.complete_blood_count
    metabolic_panel := fmt r.metabolic_panel
    clinical_interpretation := r.clinical_interpretation
    total_abnormal :=
      ((r.tumor_markers ++ r.complete_blood_count ++ r.metabolic_panel).filter
        (fun p =>
          decide (p.2.current.status = PyVal.str "High" ∨
            p.2.current.status = PyVal.str "Low" ∨
            p.2.current.status = PyVal.str "Critical"))).length
    last_updated := get_most_recent_date r }

/-! ### Order lemmas for the lexicographic comparison -/

theorem char_eq_of_toNat_eq {a b : Char} (h : a.toNat = b.toNat) : a = b := by
  rcases a with ⟨⟨a1, ha⟩, hva⟩
  rcases b with ⟨⟨b1, hb⟩, hvb⟩
  simp only [Char.toNat, UInt32.toNat] at h
  subst h
  rfl

theorem lexLtb_nil_right (l : List Char) : lexLtb l [] = false := by
  cases l <;> rfl

theorem lexLtb_irrefl (l : List Char) : lexLtb l l = false := by
  induction l with
  | nil => rfl
  | cons a as ih =>
    simp only [lexLtb, Nat.lt_irrefl, if_false]
    exact ih

theorem lexLtb_asymm : ∀ {l₁ l₂ : List Char},
    lexLtb l₁ l₂ = true → lexLtb l₂ l₁ = false
  | [], l₂, _ => lexLtb_nil_right l₂
  | _ :: _, [], h => by rw [lexLtb_nil_right] at h; cases h
  | a :: as, b :: bs, h => by
    rcases Nat.lt_trichotomy a.toNat b.toNat with hab | hab | hab
    · rw [lexLtb, if_neg (Nat.lt_asymm hab), if_pos hab]
    · rw [lexLtb, if_neg (hab ▸ Nat.lt_irrefl _), if_neg (hab ▸ Nat.lt_irrefl _)] at h ⊢
      exact lexLtb_asymm h
    · rw [lexLtb, if_neg (Nat.lt_asymm hab), if_pos hab] at h
      cases h

theorem lexLtb_eq_of_both_false : ∀ {l₁ l₂ : List Char},
    lexLtb l₁ l₂ = false → lexLtb l₂ l₁ = false → l₁ = l₂
  | [], [], _, _ => rfl
  | [], _ :: _, h, _ => by cases h
  | _ :: _, [], _, h => by cases h
  | a :: as, b :: bs, h₁, h₂ => by
    rcases Nat.lt_trichotomy a.toNat b.toNat with hab | hab | hab
    · rw [lexLtb, if_pos hab] at h₁
      cases h₁
    · rw [lexLtb, if_neg (hab ▸ Nat.lt_irrefl _), if_neg (hab ▸ Nat.lt_irrefl _)] at h₁ h₂
      rw [char_eq_of_toNat_eq hab, lexLtb_eq_of_both_false h₁ h₂]
    · rw [lexLtb, if_pos hab] at h₂
      cases h₂

theorem lexLtb_trans : ∀ {l₁ l₂ l₃ : List Char},
    lexLtb l₁ l₂ = true → lexLtb l₂ l₃ = true → lexLtb l₁ l₃ = true
  | _, l₂, [], _, h₂ => by rw [lexLtb_nil_right l₂] at h₂; cases h₂
  | [], _, _ :: _, _, _ => rfl
  | _ :: _, [], _, h₁, _ => by rw [lexLtb_nil_right] at h₁; cases h₁
  | a :: as, b :: bs, c :: cs, h₁, h₂ => by
    rcases Nat.lt_trichotomy a.toNat b.toNat with hab | hab | hab
    · rcases Nat.lt_trichotomy b.toNat c.toNat with hbc | hbc | hbc
      · rw [lexLtb, if_pos (Nat.lt_trans hab hbc)]
      · rw [lexLtb, if_pos (hbc ▸ hab)]
      · rw [lexLtb, if_neg (Nat.lt_asymm hbc), if_pos hbc] at h₂
        cases h₂
    · rcases Nat.lt_trichotomy b.toNat c.toNat with hbc | hbc | hbc
      · rw [lexLtb, if_pos (hab ▸ hbc)]
      · rw [lexLtb, if_neg (hab ▸ Nat.lt_irrefl _), if_neg (hab ▸ Nat.lt_irrefl _)] at h₁
        rw [lexLtb, if_neg (hbc ▸ Nat.lt_irrefl _), if_neg (hbc ▸ Nat.lt_irrefl _)] at h₂
        have hac : a.toNat = c.toNat := hab.trans hbc
        rw [lexLtb, if_neg (hac ▸ Nat.lt_irrefl _), if_neg (hac ▸ Nat.lt_irrefl _)]
        exact lexLtb_trans h₁ h₂
      · rw [lexLtb, if_neg (Nat.lt_asymm hbc), if_pos hbc] at h₂
        cases h₂
    · rw [lexLtb, if_neg (Nat.lt_asymm hab), if_pos hab] at h₁
      cases h₁

theorem strLeb_refl (a : String) : strLeb a a = true := by
  unfold strLeb
  rw [lexLtb_irrefl]
  rfl

theorem strLeb_total {a b : String} (h : strLeb a b = false) : strLeb b a = true := by
  unfold strLeb at h ⊢
  cases hx : lexLtb b.data a.data with
  | false => rw [hx] at h; cases h
  | true => rw [lexLtb_asymm hx]; rfl

theorem strLeb_trans {a b c : String} (h₁ : strLeb a b = true)
    (h₂ : strLeb b c = true) : strLeb a c = true := by
  unfold strLeb at h₁ h₂ ⊢
  rw [Bool.not_eq_true'] at h₁ h₂
  rw [Bool.not_eq_true']
  cases hab : lexLtb a.data b.data with
  | false =>
    have he : a.data = b.data := lexLtb_eq_of_both_false hab h₁
    rw [← he] at h₂
    exact h₂
  | true =>
    cases hca : lexLtb c.data a.data with
    | false => rfl
    | true =>
      rw [lexLtb_trans hca hab] at h₂
      cases h₂

/-! ### The ascending stable insertion sort -/

theorem insertAscBy_perm {α : Type} (key : α → String) (x : α) (l : List α) :
    (insertAscBy key x l).Perm (x :: l) := by
  induction l with
  | nil => exact List.Perm.refl _
  | cons y ys ih =>
    simp only [insertAscBy]
    cases h : strLeb (key y) (key x) with
    | true =>
      simp only [if_true]
      exact (ih.cons y).trans (List.Perm.swap x y ys)
    | false =>
      simp only [Bool.false_eq_true, if_false]
      exact List.Perm.refl _

theorem foldl_insertAscBy_perm {α : Type} (key : α → String) (l acc : List α) :
    (l.foldl (fun a x => insertAscBy key x a) acc).Perm (acc ++ l) := by
  induction l generalizing acc with
  | nil => simp
  | cons x xs ih =>
    simp only [List.foldl_cons]
    refine (ih (insertAscBy key x acc)).trans ?_
    refine (List.Perm.append_right xs (insertAscBy_perm key x acc)).trans ?_
    exact List.perm_middle.symm

theorem sortAscBy_perm {α : Type} (key : α → String) (l : List α) :
    (sortAscBy key l).Perm l := by
  have h := foldl_insertAscBy_perm key l []
  rw [List.nil_append] at h
  exact h

theorem pairwise_insertAscBy {α : Type} (key : α → String) (x : α) (l : List α)
    (h : l.Pairwise (fun a b => strLeb (key a) (key b) = true)) :
    (insertAscBy key x l).Pairwise (fun a b => strLeb (key a) (key b) = true) := by
  induction l with
  | nil => simp [insertAscBy]
  | cons y ys ih =>
    rw [List.pairwise_cons] at h
    obtain ⟨hy, hys⟩ := h
    simp only [insertAscBy]
    cases hc : strLeb (key y) (key x) with
    | true =>
      simp only [if_true]
      rw [List.pairwise_cons]
      refine ⟨fun z hz => ?_, ih hys⟩
      rcases List.mem_cons.mp ((insertAscBy_perm key x ys).mem_iff.mp hz) with h1 | hzys
      · rw [h1]; exact hc
      · exact hy z hzys
    | false =>
      simp only [Bool.false_eq_true, if_false]
      rw [List.pairwise_cons]
      have hxy : strLeb (key x) (key y) = true := strLeb_total hc
      refine ⟨fun z hz => ?_, List.pairwise_cons.mpr ⟨hy, hys⟩⟩
      rcases List.mem_cons.mp hz with h1 | hzys
      · rw [h1]; exact hxy
      · exact strLeb_trans hxy (hy z hzys)

theorem pairwise_sortAscBy {α : Type} (key : α → String) (l : List α) :
    (sortAscBy key l).Pairwise (fun a b => strLeb (key a) (key b) = true) := by
  suffices h : ∀ acc, acc.Pairwise (fun a b => strLeb (key a) (key b) = true) →
      (l.foldl (fun a x => insertAscBy key x a) acc).Pairwise
        (fun a b => strLeb (key a) (key b) = true) by
    exact h [] List.Pairwise.nil
  induction l with
  | nil => intro acc hacc; exact hacc
  | cons x xs ih =>
    intro acc hacc
    simp only [List.foldl_cons]
    exact ih _ (pairwise_insertAscBy key x acc hacc)

/-! ### Lemmas about the seen dict -/

theorem lookupSeen_eq_none_iff (k : TrendKey) (s : List (TrendKey × TrendPoint)) :
    lookupSeen k s = Option.none ↔ k ∉ s.map Prod.fst := by
  induction s with
  | nil => simp [lookupSeen]
  | cons kp rest ih =>
    obtain ⟨k1, p⟩ := kp
    simp only [lookupSeen, List.map_cons, List.mem_cons]
    by_cases h : k1 = k
    · subst h
      simp
    · rw [if_neg h, ih]
      simp only [not_or]
      constructor
      · intro hm
        exact ⟨fun hc => h hc.symm, hm⟩
      · intro hm
        exact hm.2

theorem lookupSeen_mem {k : TrendKey} {p : TrendPoint} :
    ∀ {s : List (TrendKey × TrendPoint)}, lookupSeen k s = some p → (k, p) ∈ s := by
  intro s
  induction s with
  | nil => intro h; cases h
  | cons kp rest ih =>
    obtain ⟨k1, p1⟩ := kp
    intro h
    simp only [lookupSeen] at h
    by_cases hk : k1 = k
    · rw [if_pos hk] at h
      injection h with h2
      subst hk
      subst h2
      exact List.mem_cons_self _ _
    · rw [if_neg hk] at h
      exact List.mem_cons_of_mem _ (ih h)

theorem updateSeen_map_fst (k : TrendKey) (v : TrendPoint) :
    ∀ s : List (TrendKey × TrendPoint),
      (updateSeen k v s).map Prod.fst = s.map Prod.fst
  | [] => rfl
  | (k1, p) :: rest => by
    simp only [updateSeen]
    by_cases h : k1 = k
    · rw [if_pos h]
      simp
    · rw [if_neg h]
      simp [updateSeen_map_fst k v rest]

theorem mem_updateSeen {k : TrendKey} {v : TrendPoint} :
    ∀ {s : List (TrendKey × TrendPoint)} {x}, x ∈ updateSeen k v s → x ∈ s ∨ x = (k, v)
  | [], x, h => by cases h
  | (k1, p) :: rest, x, h => by
    simp only [updateSeen] at h
    by_cases hk : k1 = k
    · rw [if_pos hk] at h
      rcases List.mem_cons.mp h with h1 | h1
      · subst hk
        right
        exact h1
      · left
        exact List.mem_cons_of_mem _ h1
    · rw [if_neg hk] at h
      rcases List.mem_cons.mp h with h1 | h1
      · left
        rw [h1]
        exact List.mem_cons_self _ _
      · rcases mem_updateSeen h1 with h2 | h2
        · left
          exact List.mem_cons_of_mem _ h2
        · right
          exact h2

theorem lookupSeen_updateSeen (k k1 : TrendKey) (v : TrendPoint) :
    ∀ s : List (TrendKey × TrendPoint),
      lookupSeen k (updateSeen k1 v s) =
        if k1 = k then
          (match lookupSeen k s with
            | Option.none => Option.none
            | some _ => some v)
        else lookupSeen k s
  | [] => by
    by_cases h : k1 = k <;> simp [updateSeen, lookupSeen, h]
  | (k0, p) :: rest => by
    simp only [updateSeen]
    by_cases h0 : k0 = k1
    · rw [if_pos h0]
      simp only [lookupSeen]
      by_cases hk : k0 = k
      · have hk1 : k1 = k := h0 ▸ hk
        rw [if_pos hk, if_pos hk, if_pos hk1]
      · have hk1 : ¬ k1 = k := fun hc => hk (h0.symm ▸ hc)
        rw [if_neg hk, if_neg hk, if_neg hk1]
    · rw [if_neg h0]
      simp only [lookupSeen]
      by_cases hk : k0 = k
      · have hk1 : ¬ k1 = k := fun hc => h0 (hc ▸ hk)
        rw [if_pos hk, if_pos hk, if_neg hk1]
      · rw [if_neg hk, if_neg hk, lookupSeen_updateSeen k k1 v rest]

theorem lookupSeen_append_single (k k1 : TrendKey) (p : TrendPoint) :
    ∀ s : List (TrendKey × TrendPoint),
      lookupSeen k (s ++ [(k1, p)]) =
        (match lookupSeen k s with
          | some q => some q
          | Option.none => if k1 = k then some p else Option.none)
  | [] => by simp [lookupSeen]
  | (k0, q) :: rest => by
    have h1 : ((k0, q) :: rest) ++ [(k1, p)] = (k0, q) :: (rest ++ [(k1, p)]) := rfl
    rw [h1]
    simp only [lookupSeen]
    by_cases hk : k0 = k
    · rw [if_pos hk, if_pos hk]
    · rw [if_neg hk, if_neg hk, lookupSeen_append_single k k1 p rest]

/-! ### Per-key tracking of the aggregation loop -/

/-- What the aggregation loop does to the entry stored for one fixed key:
a non-candidate leaves it alone; a candidate fills an empty slot, or
replaces the stored point when its `source_context` is strictly longer. -/
def winStep (k : TrendKey) (acc : Option TrendPoint) (e : BiomarkerEntry) :
    Option TrendPoint :=
  if trendKey? e = some k then
    match acc with
    | Option.none => some (mkPoint e k.1)
    | some old =>
      if old.source_context.length < (dataOf e).source_context.length then
        some (mkPoint e k.1)
      else some old
  else acc

theorem trendStep_skip {s : List (TrendKey × TrendPoint)} {e : BiomarkerEntry}
    (h : trendKey? e = Option.none) : trendStep s e = s := by
  unfold trendStep
  rw [h]

theorem trendStep_new {s : List (TrendKey × TrendPoint)} {e : BiomarkerEntry}
    {k : TrendKey} (ht : trendKey? e = some k)
    (hl : lookupSeen k s = Option.none) :
    trendStep s e = s ++ [(k, mkPoint e k.1)] := by
  simp only [trendStep, ht, hl]

theorem trendStep_update {s : List (TrendKey × TrendPoint)} {e : BiomarkerEntry}
    {k : TrendKey} {old : TrendPoint} (ht : trendKey? e = some k)
    (hl : lookupSeen k s = some old)
    (hlen : old.source_context.length < (dataOf e).source_context.length) :
    trendStep s e = updateSeen k (mkPoint e k.1) s := by
  simp only [trendStep, ht, hl]
  rw [if_pos hlen]

theorem trendStep_keep {s : List (TrendKey × TrendPoint)} {e : BiomarkerEntry}
    {k : TrendKey} {old : TrendPoint} (ht : trendKey? e = some k)
    (hl : lookupSeen k s = some old)
    (hlen : ¬ old.source_context.length < (dataOf e).source_context.length) :
    trendStep s e = s := by
  simp only [trendStep, ht, hl]
  rw [if_neg hlen]

theorem lookupSeen_trendStep (k : TrendKey) (s : List (TrendKey × TrendPoint))
    (e : BiomarkerEntry) :
    lookupSeen k (trendStep s e) = winStep k (lookupSeen k s) e := by
  cases ht : trendKey? e with
  | none =>
    have hne : ¬ trendKey? e = some k := by
      rw [ht]
      exact fun hc => Option.noConfusion hc
    rw [trendStep_skip ht]
    unfold winStep
    rw [if_neg hne]
  | some k1 =>
    by_cases hk : k1 = k
    · subst hk
      unfold winStep
      rw [if_pos ht]
      cases hl : lookupSeen k1 s with
      | none =>
        rw [trendStep_new ht hl, lookupSeen_append_single, hl, if_pos rfl]
      | some old =>
        by_cases hlen : old.source_context.length < (dataOf e).source_context.length
        · rw [trendStep_update ht hl hlen, lookupSeen_updateSeen, if_pos rfl, hl]
          simp [hlen]
        · rw [trendStep_keep ht hl hlen, hl]
          simp [hlen]
    · have hne : ¬ trendKey? e = some k := by
        rw [ht]
        intro hc
        injection hc with hc2
        exact hk hc2
      unfold winStep
      rw [if_neg hne]
      cases hl : lookupSeen k1 s with
      | none =>
        rw [trendStep_new ht hl, lookupSeen_append_single, if_neg hk]
        cases lookupSeen k s <;> rfl
      | some old =>
        by_cases hlen : old.source_context.length < (dataOf e).source_context.length
        · rw [trendStep_update ht hl hlen, lookupSeen_updateSeen, if_neg hk]
        · rw [trendStep_keep ht hl hlen]

theorem lookupSeen_foldl (k : TrendKey) :
    ∀ (l : List BiomarkerEntry) (s : List (TrendKey × TrendPoint)),
      lookupSeen k (l.foldl trendStep s) = l.foldl (winStep k) (lookupSeen k s)
  | [], _ => rfl
  | e :: rest, s => by
    simp only [List.foldl_cons]
    rw [lookupSeen_foldl k rest (trendStep s e), lookupSeen_trendStep]

theorem foldl_winStep_filter (k : TrendKey) :
    ∀ (l : List BiomarkerEntry) (acc : Option TrendPoint),
      (l.filter (fun e => decide (trendKey? e = some k))).foldl (winStep k) acc =
        l.foldl (winStep k) acc
  | [], _ => rfl
  | e :: rest, acc => by
    simp only [List.filter_cons, List.foldl_cons]
    by_cases h : trendKey? e = some k
    · have hd : decide (trendKey? e = some k) = true := decide_eq_true h
      rw [hd, if_pos rfl]
      simp only [List.foldl_cons]
      exact foldl_winStep_filter k rest _
    · have hd : decide (trendKey? e = some k) = false := decide_eq_false h
      have hw : winStep k acc e = acc := by
        unfold winStep
        rw [if_neg h]
      rw [hd, if_neg Bool.false_ne_true, hw]
      exact foldl_winStep_filter k rest _

/-! ### Key uniqueness and the pair-equals-key invariant -/

/-- Every stored point carries exactly its key's date and value. -/
def SeenInv (s : List (TrendKey × TrendPoint)) : Prop :=
  ∀ kp ∈ s, kp.2.date = kp.1.1 ∧ kp.2.value = kp.1.2

theorem trendKey?_inv {e : BiomarkerEntry} {k : TrendKey}
    (h : trendKey? e = some k) :
    getDate (dataOf e).date = some k.1 ∧ (dataOf e).value = k.2 := by
  cases hd : getDate (dataOf e).date with
  | none =>
    simp only [trendKey?, hd] at h
    exact Option.noConfusion h
  | some d =>
    simp only [trendKey?, hd] at h
    by_cases hc : d = "NA" ∨ (dataOf e).value = PyVal.str "NA" ∨
        (dataOf e).value = PyVal.none ∨ (dataOf e).value = PyVal.str ""
    · rw [if_pos hc] at h
      cases h
    · rw [if_neg hc] at h
      injection h with h1
      rw [← h1]
      exact ⟨rfl, rfl⟩

theorem nodup_keys_trendStep {s : List (TrendKey × TrendPoint)} {e : BiomarkerEntry}
    (h : (s.map Prod.fst).Nodup) : ((trendStep s e).map Prod.fst).Nodup := by
  cases ht : trendKey? e with
  | none =>
    rw [trendStep_skip ht]
    exact h
  | some k =>
    cases hl : lookupSeen k s with
    | none =>
      rw [trendStep_new ht hl]
      simp only [List.map_append, List.map_cons, List.map_nil]
      rw [List.nodup_append]
      refine ⟨h, List.nodup_singleton _, ?_⟩
      intro a ha hb
      rw [List.mem_singleton] at hb
      subst hb
      exact (lookupSeen_eq_none_iff _ s).mp hl ha
    | some old =>
      by_cases hlen : old.source_context.length < (dataOf e).source_context.length
      · rw [trendStep_update ht hl hlen, updateSeen_map_fst]
        exact h
      · rw [trendStep_keep ht hl hlen]
        exact h

theorem nodup_keys_foldl :
    ∀ (l : List BiomarkerEntry) (s : List (TrendKey × TrendPoint)),
      (s.map Prod.fst).Nodup → (((l.foldl trendStep s)).map Prod.fst).Nodup
  | [], _, h => h
  | e :: rest, s, h => by
    simp only [List.foldl_cons]
    exact nodup_keys_foldl rest _ (nodup_keys_trendStep h)

theorem seenInv_trendStep {s : List (TrendKey × TrendPoint)} {e : BiomarkerEntry}
    (h : SeenInv s) : SeenInv (trendStep s e) := by
  cases ht : trendKey? e with
  | none =>
    rw [trendStep_skip ht]
    exact h
  | some k =>
    have hpt : (mkPoint e k.1).date = k.1 ∧ (mkPoint e k.1).value = k.2 :=
      ⟨rfl, (trendKey?_inv ht).2⟩
    cases hl : lookupSeen k s with
    | none =>
      rw [trendStep_new ht hl]
      intro kp hm
      rcases List.mem_append.mp hm with hm1 | hm1
      · exact h kp hm1
      · rw [List.mem_singleton] at hm1
        subst hm1
        exact hpt
    | some old =>
      by_cases hlen : old.source_context.length < (dataOf e).source_context.length
      · rw [trendStep_update ht hl hlen]
        intro kp hm
        rcases mem_updateSeen hm with hm1 | hm1
        · exact h kp hm1
        · subst hm1
          exact hpt
      · rw [trendStep_keep ht hl hlen]
        exact h

theorem seenInv_foldl :
    ∀ (l : List BiomarkerEntry) (s : List (TrendKey × TrendPoint)),
      SeenInv s → SeenInv (l.foldl trendStep s)
  | [], _, h => h
  | e :: rest, s, h => by
    simp only [List.foldl_cons]
    exact seenInv_foldl rest _ (seenInv_trendStep h)

theorem filter_map_snd_key :
    ∀ (s : List (TrendKey × TrendPoint)), (s.map Prod.fst).Nodup → SeenInv s →
      ∀ k : TrendKey,
        (s.map Prod.snd).filter (fun p => decide ((p.date, p.value) = k)) =
          (match lookupSeen k s with
            | some p => [p]
            | Option.none => [])
  | [], _, _, _ => rfl
  | (k1, p) :: rest, hn, hi, k => by
    have hp : (p.date, p.value) = k1 := by
      have h1 := hi (k1, p) (List.mem_cons_self _ _)
      exact Prod.ext h1.1 h1.2
    have hn1 : (k1 :: rest.map Prod.fst).Nodup := by
      rw [List.map_cons] at hn
      exact hn
    have hn2 := List.nodup_cons.mp hn1
    have hi2 : SeenInv rest := fun kp hm => hi kp (List.mem_cons_of_mem _ hm)
    simp only [List.map_cons, List.filter_cons, lookupSeen]
    by_cases hk : k1 = k
    · subst hk
      have h0 : lookupSeen k1 rest = Option.none :=
        (lookupSeen_eq_none_iff k1 rest).mpr hn2.1
      rw [if_pos rfl, filter_map_snd_key rest hn2.2 hi2 k1, h0, hp]
      simp
    · rw [if_neg hk, filter_map_snd_key rest hn2.2 hi2 k, hp]
      simp [hk]

theorem build_trend_filter_key (l : List BiomarkerEntry) (k : TrendKey) :
    (build_trend_from_values l).filter (fun p => decide ((p.date, p.value) = k)) =
      (match (l.filter (fun e => decide (trendKey? e = some k))).foldl
          (winStep k) Option.none with
        | some p => [p]
        | Option.none => []) := by
  unfold build_trend_from_values
  have hn : (((l.foldl trendStep []).map Prod.fst)).Nodup :=
    nodup_keys_foldl l [] (by simp)
  have hi : SeenInv (l.foldl trendStep []) := seenInv_foldl l [] (by intro kp h; cases h)
  have hfilter :=
    (sortAscBy_perm (fun p => p.date) ((l.foldl trendStep []).map Prod.snd)).filter
      (fun p => decide ((p.date, p.value) = k))
  rw [filter_map_snd_key _ hn hi k] at hfilter
  have hlk : lookupSeen k (l.foldl trendStep []) = l.foldl (winStep k) Option.none := by
    rw [lookupSeen_foldl k l []]
    rfl
  rw [hlk] at hfilter
  rw [foldl_winStep_filter]
  cases hm : l.foldl (winStep k) Option.none with
  | none =>
    rw [hm] at hfilter
    exact List.perm_nil.mp hfilter
  | some p =>
    rw [hm] at hfilter
    exact List.perm_singleton.mp hfilter

theorem winStep_isSome {k : TrendKey} {acc : Option TrendPoint} {e : BiomarkerEntry}
    (h : acc.isSome) : (winStep k acc e).isSome := by
  unfold winStep
  by_cases ht : trendKey? e = some k
  · rw [if_pos ht]
    cases acc with
    | none => rfl
    | some old =>
      by_cases hlen : old.source_context.length < (dataOf e).source_context.length
      · simp [hlen]
      · simp [hlen]
  · rw [if_neg ht]
    exact h

theorem foldl_winStep_isSome {k : TrendKey} :
    ∀ {l : List BiomarkerEntry} {acc : Option TrendPoint}, acc.isSome →
      (l.foldl (winStep k) acc).isSome
  | [], _, h => h
  | e :: rest, acc, h => by
    simp only [List.foldl_cons]
    exact foldl_winStep_isSome (winStep_isSome h)

theorem foldl_winStep_isSome_of_mem {k : TrendKey} {c : BiomarkerEntry} :
    ∀ {l : List BiomarkerEntry} {acc : Option TrendPoint}, c ∈ l →
      trendKey? c = some k → (l.foldl (winStep k) acc).isSome := by
  intro l
  induction l with
  | nil => intro acc h; cases h
  | cons e rest ih =>
    intro acc hm hc
    simp only [List.foldl_cons]
    rcases List.mem_cons.mp hm with h1 | h1
    · subst h1
      have hs : (winStep k acc c).isSome := by
        unfold winStep
        rw [if_pos hc]
        cases acc with
        | none => rfl
        | some old =>
          by_cases hlen : old.source_context.length < (dataOf c).source_context.length
          · simp [hlen]
          · simp [hlen]
      exact foldl_winStep_isSome hs
    · exact ih h1 hc

/-! ### The descending stable sort of merge_biomarker_data -/

theorem insertDescP_perm {α : Type} (key : α → String) (x : α) (l : List α) :
    (insertDescP key x l).Perm (x :: l) := by
  induction l with
  | nil => exact List.Perm.refl _
  | cons y ys ih =>
    simp only [insertDescP]
    cases h : strLeb (key x) (key y) with
    | true =>
      simp only [if_true]
      exact (ih.cons y).trans (List.Perm.swap x y ys)
    | false =>
      simp only [Bool.false_eq_true, if_false]
      exact List.Perm.refl _

theorem insertDescBy_eq_some {α : Type} (key : α → Option String) (x : α)
    (hx : key x ≠ Option.none) :
    ∀ acc : List α, (∀ a ∈ acc, key a ≠ Option.none) →
      insertDescBy key x acc =
        some (insertDescP (fun a => (key a).getD "") x acc)
  | [], _ => rfl
  | y :: ys, hacc => by
    have hy : key y ≠ Option.none := hacc y (List.mem_cons_self _ _)
    obtain ⟨kx, hkx⟩ : ∃ s, key x = some s := by
      cases hkx : key x with
      | none => exact absurd hkx hx
      | some s => exact ⟨s, rfl⟩
    obtain ⟨ky, hky⟩ : ∃ s, key y = some s := by
      cases hky : key y with
      | none => exact absurd hky hy
      | some s => exact ⟨s, rfl⟩
    simp only [insertDescBy, insertDescP, hkx, hky, keyVal, Option.bind_eq_bind,
      Option.some_bind, Option.getD_some]
    cases hc : strLeb kx ky with
    | true =>
      simp only [if_true]
      rw [insertDescBy_eq_some key x hx ys
        (fun a ha => hacc a (List.mem_cons_of_mem _ ha))]
      rfl
    | false =>
      simp only [Bool.false_eq_true, if_false]

theorem insertDescP_keys {α : Type} (key : α → Option String) (x : α)
    (hx : key x ≠ Option.none) (acc : List α)
    (hacc : ∀ a ∈ acc, key a ≠ Option.none) :
    ∀ a ∈ insertDescP (fun a => (key a).getD "") x acc, key a ≠ Option.none := by
  intro a ha
  rcases List.mem_cons.mp
      ((insertDescP_perm (fun a => (key a).getD "") x acc).mem_iff.mp ha) with h1 | h1
  · rw [h1]
    exact hx
  · exact hacc a h1

theorem sortDescBy_eq_some {α : Type} (key : α → Option String) (l : List α)
    (h : ∀ a ∈ l, key a ≠ Option.none) :
    sortDescBy key l = some (sortDescP (fun a => (key a).getD "") l) := by
  suffices hs : ∀ (l : List α) (acc : List α), (∀ a ∈ l, key a ≠ Option.none) →
      (∀ a ∈ acc, key a ≠ Option.none) →
      l.foldlM (fun acc x => insertDescBy key x acc) acc =
        some (l.foldl (fun acc x => insertDescP (fun a => (key a).getD "") x acc) acc) by
    exact hs l [] h (by intro a ha; cases ha)
  intro l2
  induction l2 with
  | nil =>
    intro acc _ _
    rfl
  | cons x xs ih =>
    intro acc hl hacc
    have hx : key x ≠ Option.none := hl x (List.mem_cons_self _ _)
    simp only [List.foldlM_cons, List.foldl_cons]
    rw [insertDescBy_eq_some key x hx acc hacc]
    simp only [Option.bind_eq_bind, Option.some_bind]
    exact ih _ (fun a ha => hl a (List.mem_cons_of_mem _ ha))
      (insertDescP_keys key x hx acc hacc)

/-- One step of tracking the head of the descending stable sort: the head
stays unless the new element's key is strictly greater; so the head of the
sorted list is the first occurrence of the maximal key. -/
def maxStep {α : Type} (key : α → String) (h : Option α) (x : α) : Option α :=
  match h with
  | Option.none => some x
  | some m => if strLeb (key x) (key m) then some m else some x

/-- The first element of the list attaining the maximal key (a later
element replaces the running maximum only when strictly greater). -/
def firstMaxBy {α : Type} (key : α → String) (l : List α) : Option α :=
  l.foldl (maxStep key) Option.none

theorem head_insertDescP {α : Type} (key : α → String) (x : α) (l : List α) :
    (insertDescP key x l).head? = maxStep key l.head? x := by
  cases l with
  | nil => rfl
  | cons y ys =>
    simp only [insertDescP, maxStep, List.head?_cons]
    cases h : strLeb (key x) (key y) with
    | true => simp
    | false => simp

theorem head_foldl_insertDescP {α : Type} (key : α → String) :
    ∀ (l : List α) (acc : List α),
      (l.foldl (fun a x => insertDescP key x a) acc).head? =
        l.foldl (maxStep key) acc.head?
  | [], _ => rfl
  | x :: xs, acc => by
    simp only [List.foldl_cons]
    rw [head_foldl_insertDescP key xs, head_insertDescP]

theorem head_sortDescP {α : Type} (key : α → String) (l : List α) :
    (sortDescP key l).head? = firstMaxBy key l := by
  unfold sortDescP firstMaxBy
  exact head_foldl_insertDescP key l []

theorem foldl_maxStep_max {α : Type} (key : α → String) (m : α) :
    ∀ l : List α, (∀ e ∈ l, strLeb (key e) (key m) = true) →
      l.foldl (maxStep key) (some m) = some m
  | [], _ => rfl
  | e :: rest, h => by
    simp only [List.foldl_cons, maxStep]
    rw [h e (List.mem_cons_self _ _), if_pos rfl]
    exact foldl_maxStep_max key m rest (fun a ha => h a (List.mem_cons_of_mem _ ha))

theorem foldl_maxStep_mem {α : Type} (key : α → String) :
    ∀ (l : List α) (acc : Option α) (y : α),
      l.foldl (maxStep key) acc = some y → acc = some y ∨ y ∈ l
  | [], acc, y, h => Or.inl h
  | e :: rest, acc, y, h => by
    simp only [List.foldl_cons] at h
    rcases foldl_maxStep_mem key rest (maxStep key acc e) y h with h1 | h1
    · cases acc with
      | none =>
        have h2 : maxStep key Option.none e = some e := rfl
        rw [h2] at h1
        injection h1 with h3
        right
        rw [← h3]
        exact List.mem_cons_self _ _
      | some m =>
        by_cases hc : strLeb (key e) (key m) = true
        · have h2 : maxStep key (some m) e = some m := by
            show (if strLeb (key e) (key m) = true then some m else some e) = some m
            rw [if_pos hc]
          rw [h2] at h1
          exact Or.inl h1
        · have h2 : maxStep key (some m) e = some e := by
            show (if strLeb (key e) (key m) = true then some m else some e) = some e
            rw [if_neg hc]
          rw [h2] at h1
          injection h1 with h3
          right
          rw [← h3]
          exact List.mem_cons_self _ _
    · right
      exact List.mem_cons_of_mem _ h1

theorem firstMaxBy_spec {α : Type} (key : α → String) (l₁ : List α) (m : α)
    (l₂ : List α)
    (hmax : ∀ e ∈ l₁ ++ m :: l₂, strLeb (key e) (key m) = true)
    (hfirst : ∀ e ∈ l₁, strLeb (key m) (key e) = false) :
    firstMaxBy key (l₁ ++ m :: l₂) = some m := by
  unfold firstMaxBy
  rw [List.foldl_append]
  have hl₂ : ∀ e ∈ l₂, strLeb (key e) (key m) = true := by
    intro e he
    exact hmax e (List.mem_append.mpr (Or.inr (List.mem_cons_of_mem _ he)))
  cases hacc : l₁.foldl (maxStep key) Option.none with
  | none =>
    simp only [List.foldl_cons, maxStep]
    exact foldl_maxStep_max key m l₂ hl₂
  | some m1 =>
    have hm1 : m1 ∈ l₁ := by
      rcases foldl_maxStep_mem key l₁ Option.none m1 hacc with h1 | h1
      · cases h1
      · exact h1
    simp only [List.foldl_cons, maxStep]
    rw [hfirst m1 hm1]
    simp only [Bool.false_eq_true, if_false]
    exact foldl_maxStep_max key m l₂ hl₂

/-! ### Claim theorems -/

/-- C6: for every input list, the trend returned by `build_trend_from_values`
is sorted ascending by the `date` field under lexicographic string
comparison, and no two points in it share the same `(date, value)` pair. -/
theorem C6_trend_sorted_and_unique (l : List BiomarkerEntry) :
    (build_trend_from_values l).Pairwise
        (fun p q => strLeb p.date q.date = true) ∧
    (build_trend_from_values l).Pairwise
        (fun p q => (p.date, p.value) ≠ (q.date, q.value)) := by
  constructor
  · unfold build_trend_from_values
    exact pairwise_sortAscBy _ _
  · have hn : (((l.foldl trendStep []).map Prod.fst)).Nodup :=
      nodup_keys_foldl l [] (by simp)
    have hi : SeenInv (l.foldl trendStep []) :=
      seenInv_foldl l [] (by intro kp h; cases h)
    have hs : (l.foldl trendStep []).Pairwise (fun a b => a.1 ≠ b.1) :=
      List.pairwise_map.mp hn
    have hs2 : (l.foldl trendStep []).Pairwise
        (fun a b => (a.2.date, a.2.value) ≠ (b.2.date, b.2.value)) := by
      refine hs.imp_of_mem ?_
      intro a b ha hb hne
      have hia := hi a ha
      have hib := hi b hb
      rw [hia.1, hia.2, hib.1, hib.2]
      intro hc
      apply hne
      rw [← (Prod.mk.eta : (a.1.1, a.1.2) = a.1), ← (Prod.mk.eta : (b.1.1, b.1.2) = b.1)]
      exact hc
    have hs3 : ((l.foldl trendStep []).map Prod.snd).Pairwise
        (fun p q => (p.date, p.value) ≠ (q.date, q.value)) :=
      List.pairwise_map.mpr hs2
    unfold build_trend_from_values
    exact ((sortAscBy_perm (fun p => p.date) _).pairwise_iff
      (fun {p q} hpq hc => hpq hc.symm)).mpr hs3

/-- C4 counterexample: a record with a non-empty value and a date equal to
`""` is NOT skipped by `build_trend_from_values` — it contributes a trend
point — whereas the claim states it is skipped entirely (which would leave
the trend empty). -/
theorem C4_counterexample :
    build_trend_from_values
        [.flat ⟨PyVal.num 5, PyVal.none, DateField.str "", PyVal.none, PyVal.none, ""⟩] =
      [⟨"", PyVal.num 5, PyVal.none, ""⟩] ∧
    [(⟨"", PyVal.num 5, PyVal.none, ""⟩ : TrendPoint)] ≠ [] := by
  constructor
  · decide
  · decide

/-- C4 (amended): a record is skipped by `build_trend_from_values` iff its
date is `None` (or a missing key) or the literal `"NA"`, or its value is
`None`, `"NA"`, or `""`; a date equal to `""` is NOT a skip condition.
Skipped records contribute nothing, and every non-skipped record's
`(date, value)` pair reaches deduplication and appears in the output. -/
theorem C4_admission (e : BiomarkerEntry) (l₁ l₂ : List BiomarkerEntry) :
    (trendKey? e = Option.none ↔
      (getDate (dataOf e).date = Option.none ∨ getDate (dataOf e).date = some "NA" ∨
        (dataOf e).value = PyVal.none ∨ (dataOf e).value = PyVal.str "NA" ∨
        (dataOf e).value = PyVal.str "")) ∧
    (trendKey? e = Option.none →
      build_trend_from_values (l₁ ++ e :: l₂) = build_trend_from_values (l₁ ++ l₂)) ∧
    (∀ d v, trendKey? e = some (d, v) →
      ∃ p ∈ build_trend_from_values (l₁ ++ e :: l₂), p.date = d ∧ p.value = v) := by
  refine ⟨?_, ?_, ?_⟩
  · cases hd : getDate (dataOf e).date with
    | none =>
      simp only [trendKey?, hd]
      tauto
    | some d =>
      simp only [trendKey?, hd]
      by_cases hc : d = "NA" ∨ (dataOf e).value = PyVal.str "NA" ∨
          (dataOf e).value = PyVal.none ∨ (dataOf e).value = PyVal.str ""
      · rw [if_pos hc]
        simp only [Option.some.injEq]
        constructor
        · intro _
          rcases hc with h1 | h1 | h1 | h1
          · right
            left
            rw [h1]
          · right
            right
            right
            left
            exact h1
          · right
            right
            left
            exact h1
          · right
            right
            right
            right
            exact h1
        · intro _
          trivial
      · rw [if_neg hc]
        simp only [Option.some.injEq]
        push_neg at hc
        constructor
        · intro h1
          cases h1
        · intro h1
          rcases h1 with h1 | h1 | h1 | h1 | h1
          · cases h1
          · exact absurd h1 hc.1
          · exact absurd h1 hc.2.2.1
          · exact absurd h1 hc.2.1
          · exact absurd h1 hc.2.2.2
  · intro h
    unfold build_trend_from_values
    rw [List.foldl_append, List.foldl_cons, trendStep_skip h, ← List.foldl_append]
  · intro d v ht
    have hmem : e ∈ (l₁ ++ e :: l₂).filter
        (fun c => decide (trendKey? c = some (d, v))) :=
      List.mem_filter.mpr
        ⟨List.mem_append.mpr (Or.inr (List.mem_cons_self _ _)), decide_eq_true ht⟩
    have hsome : (((l₁ ++ e :: l₂).filter
        (fun c => decide (trendKey? c = some (d, v)))).foldl
          (winStep (d, v)) Option.none).isSome :=
      foldl_winStep_isSome_of_mem hmem ht
    obtain ⟨p, hp⟩ := Option.isSome_iff_exists.mp hsome
    have hkey := build_trend_filter_key (l₁ ++ e :: l₂) (d, v)
    rw [hp] at hkey
    refine ⟨p, ?_, ?_⟩
    · have hpmem : p ∈ (build_trend_from_values (l₁ ++ e :: l₂)).filter
          (fun q => decide ((q.date, q.value) = (d, v))) := by
        rw [hkey]
        exact List.mem_cons_self _ _
      exact (List.mem_filter.mp hpmem).1
    · have hpmem : p ∈ (build_trend_from_values (l₁ ++ e :: l₂)).filter
          (fun q => decide ((q.date, q.value) = (d, v))) := by
        rw [hkey]
        exact List.mem_cons_self _ _
      have := of_decide_eq_true (List.mem_filter.mp hpmem).2
      rw [Prod.mk.injEq] at this
      exact this

/-- C4 witness: a concrete skipped record (null value) contributes
nothing, at a concrete position in a concrete list. -/
theorem C4_admission_witness :
    build_trend_from_values
        ([] ++ BiomarkerEntry.flat
            ⟨PyVal.none, PyVal.none, DateField.str "2024-05-05", PyVal.none, PyVal.none, ""⟩ ::
          [BiomarkerEntry.flat
            ⟨PyVal.num 7, PyVal.none, DateField.str "2024-01-01", PyVal.none, PyVal.none, ""⟩]) =
      build_trend_from_values
        ([] ++ [BiomarkerEntry.flat
          ⟨PyVal.num 7, PyVal.none, DateField.str "2024-01-01", PyVal.none, PyVal.none, ""⟩]) :=
  (C4_admission
    (BiomarkerEntry.flat
      ⟨PyVal.none, PyVal.none, DateField.str "2024-05-05", PyVal.none, PyVal.none, ""⟩)
    []
    [BiomarkerEntry.flat
      ⟨PyVal.num 7, PyVal.none, DateField.str "2024-01-01", PyVal.none, PyVal.none, ""⟩]).2.1
    (by decide)

/-- C5 counterexample: two records with identical `(date, value)` whose
value is `"NA"` produce NO trend point at all (both are skipped), not
exactly one as the claim states for every such list. -/
theorem C5_counterexample :
    (build_trend_from_values
        [.flat ⟨PyVal.str "NA", PyVal.none, DateField.str "2024-01-10", PyVal.none,
            PyVal.none, "ctx"⟩,
         .flat ⟨PyVal.str "NA", PyVal.none, DateField.str "2024-01-10", PyVal.none,
            PyVal.none, "ctx"⟩]).filter
        (fun p => decide ((p.date, p.value) = ("2024-01-10", PyVal.str "NA"))) = [] ∧
    ([] : List TrendPoint).length ≠ 1 := by
  constructor
  · decide
  · decide

/-- C5 (amended): when, among the records that pass the skip filter,
exactly two (in order `a` then `b`) carry a given `(date, value)` key, the
output trend contains exactly one point for that pair, and its
`source_context` is the longer of the two candidates' (the first
candidate's on a tie); keys are compared by exact `(date, value)`
equality, a string value never matching a number. -/
theorem C5_dedup (l : List BiomarkerEntry) (k : TrendKey) (a b : BiomarkerEntry)
    (hf : l.filter (fun e => decide (trendKey? e = some k)) = [a, b]) :
    ∃ p : TrendPoint,
      (build_trend_from_values l).filter
          (fun q => decide ((q.date, q.value) = k)) = [p] ∧
      p.source_context =
        (if (dataOf a).source_context.length < (dataOf b).source_context.length
          then (dataOf b).source_context else (dataOf a).source_context) ∧
      (p.source_context = (dataOf a).source_context ∨
        p.source_context = (dataOf b).source_context) := by
  have ha : trendKey? a = some k := by
    have hm : a ∈ l.filter (fun e => decide (trendKey? e = some k)) := by
      rw [hf]
      exact List.mem_cons_self _ _
    exact of_decide_eq_true (List.mem_filter.mp hm).2
  have hb : trendKey? b = some k := by
    have hm : b ∈ l.filter (fun e => decide (trendKey? e = some k)) := by
      rw [hf]
      exact List.mem_cons_of_mem _ (List.mem_cons_self _ _)
    exact of_decide_eq_true (List.mem_filter.mp hm).2
  have hkey := build_trend_filter_key l k
  rw [hf] at hkey
  simp only [List.foldl_cons, List.foldl_nil] at hkey
  have h1 : winStep k Option.none a = some (mkPoint a k.1) := by
    unfold winStep
    rw [if_pos ha]
  rw [h1] at hkey
  by_cases hlen :
      (mkPoint a k.1).source_context.length < (dataOf b).source_context.length
  · have h2 : winStep k (some (mkPoint a k.1)) b = some (mkPoint b k.1) := by
      unfold winStep
      rw [if_pos hb]
      show (if (mkPoint a k.1).source_context.length <
          (dataOf b).source_context.length then some (mkPoint b k.1)
        else some (mkPoint a k.1)) = some (mkPoint b k.1)
      rw [if_pos hlen]
    rw [h2] at hkey
    refine ⟨mkPoint b k.1, hkey, ?_, Or.inr rfl⟩
    show (dataOf b).source_context = _
    rw [if_pos (show (dataOf a).source_context.length <
      (dataOf b).source_context.length from hlen)]
  · have h2 : winStep k (some (mkPoint a k.1)) b = some (mkPoint a k.1) := by
      unfold winStep
      rw [if_pos hb]
      show (if (mkPoint a k.1).source_context.length <
          (dataOf b).source_context.length then some (mkPoint b k.1)
        else some (mkPoint a k.1)) = some (mkPoint a k.1)
      rw [if_neg hlen]
    rw [h2] at hkey
    refine ⟨mkPoint a k.1, hkey, ?_, Or.inl rfl⟩
    show (dataOf a).source_context = _
    rw [if_neg (show ¬ (dataOf a).source_context.length <
      (dataOf b).source_context.length from hlen)]

/-- C5 witness: two concrete duplicate records; the one with the longer
`source_context` ("Quest Jan") wins. -/
theorem C5_dedup_witness :
    ∃ p : TrendPoint,
      (build_trend_from_values
          [.flat ⟨PyVal.num 5, PyVal.str "ng/mL", DateField.str "2024-01-10",
              PyVal.str "Normal", PyVal.none, "Quest"⟩,
           .flat ⟨PyVal.num 5, PyVal.str "ng/mL", DateField.str "2024-01-10",
              PyVal.str "Normal", PyVal.none, "Quest Jan"⟩]).filter
          (fun q => decide ((q.date, q.value) = ("2024-01-10", PyVal.num 5))) = [p] ∧
      p.source_context =
        (if (dataOf (.flat ⟨PyVal.num 5, PyVal.str "ng/mL", DateField.str "2024-01-10",
              PyVal.str "Normal", PyVal.none, "Quest"⟩)).source_context.length <
            (dataOf (.flat ⟨PyVal.num 5, PyVal.str "ng/mL", DateField.str "2024-01-10",
              PyVal.str "Normal", PyVal.none, "Quest Jan"⟩)).source_context.length
          then (dataOf (.flat ⟨PyVal.num 5, PyVal.str "ng/mL", DateField.str "2024-01-10",
              PyVal.str "Normal", PyVal.none, "Quest Jan"⟩)).source_context
          else (dataOf (.flat ⟨PyVal.num 5, PyVal.str "ng/mL", DateField.str "2024-01-10",
              PyVal.str "Normal", PyVal.none, "Quest"⟩)).source_context) ∧
      (p.source_context =
          (dataOf (.flat ⟨PyVal.num 5, PyVal.str "ng/mL", DateField.str "2024-01-10",
            PyVal.str "Normal", PyVal.none, "Quest"⟩)).source_context ∨
        p.source_context =
          (dataOf (.flat ⟨PyVal.num 5, PyVal.str "ng/mL", DateField.str "2024-01-10",
            PyVal.str "Normal", PyVal.none, "Quest Jan"⟩)).source_context) :=
  C5_dedup _ ("2024-01-10", PyVal.num 5) _ _ (by decide)

/-- C2 counterexample: the claim's own example — one non-empty record with
a null date together with one non-empty record with a string date — makes
`merge_biomarker_data` raise a `TypeError` (modelled `Option.none`): the
descending sort compares the `None` sort key with a string. -/
theorem C2_counterexample :
    merge_biomarker_data
        [.flat ⟨PyVal.num 5, PyVal.none, DateField.null, PyVal.none, PyVal.none, ""⟩,
         .flat ⟨PyVal.num 6, PyVal.none, DateField.str "2024-01-01", PyVal.none,
            PyVal.none, ""⟩] = Option.none := by
  decide

/-- C2 (amended): `merge_biomarker_data` returns a consolidated structure
without raising provided every non-empty record's date is a string or an
absent key (sort key not Python `None`); empty records may have any date
since they are filtered out before the sort. -/
theorem C2_no_raise (l : List BiomarkerEntry)
    (hkeys : ∀ e ∈ l, is_empty_biomarker e = false → sortKey e ≠ Option.none) :
    ∃ r, merge_biomarker_data l = some r := by
  by_cases hv : (l.filter (fun b => ! is_empty_biomarker b)).isEmpty = true
  · refine ⟨⟨emptyCurrent, []⟩, ?_⟩
    simp only [merge_biomarker_data]
    rw [if_pos hv]
  · have hall : ∀ e ∈ l.filter (fun b => ! is_empty_biomarker b),
        sortKey e ≠ Option.none := by
      intro e he
      have h1 := List.mem_filter.mp he
      apply hkeys e h1.1
      have h2 := h1.2
      cases h3 : is_empty_biomarker e
      · rfl
      · rw [h3] at h2
        cases h2
    have hsort := sortDescBy_eq_some sortKey _ hall
    rw [← Option.isSome_iff_exists]
    simp only [merge_biomarker_data]
    rw [if_neg hv, hsort]
    rfl

/-- C2 witness: an empty record with a null date is skipped and a
consolidated structure is returned. -/
theorem C2_no_raise_witness :
    ∃ r, merge_biomarker_data
        [.flat ⟨PyVal.none, PyVal.none, DateField.null, PyVal.none, PyVal.none, ""⟩,
         .flat ⟨PyVal.num 6, PyVal.none, DateField.str "2024-01-01", PyVal.none,
            PyVal.none, ""⟩] = some r :=
  C2_no_raise _ (by decide)

/-- C7 counterexample: with a non-empty null-dated record alongside a
non-empty string-dated record, `merge_biomarker_data` raises (returns
`Option.none`) instead of selecting the date-maximal record as the claim
requires. -/
theorem C7_counterexample :
    merge_biomarker_data
        [.flat ⟨PyVal.str "Pos", PyVal.none, DateField.null, PyVal.none, PyVal.none, ""⟩,
         .flat ⟨PyVal.num 2, PyVal.none, DateField.str "2023-12-31", PyVal.none,
            PyVal.none, ""⟩] = Option.none ∧
    (Option.none : Option ConsolidatedBiomarker) ≠
      some ⟨⟨PyVal.num 2, PyVal.none, some "2023-12-31", PyVal.none, PyVal.none⟩,
        [⟨"2023-12-31", PyVal.num 2, PyVal.none, ""⟩]⟩ := by
  constructor
  · decide
  · decide

/-- C7 (amended): provided every non-empty record's date is a string or an
absent key — if every record is empty, the consolidated `current` is the
canonical empty shape and the trend is empty; otherwise `current` holds
the fields of the non-empty record with the lexicographically maximal
date-sort key, ties broken by original list order (the record before
which every earlier non-empty record is strictly smaller). -/
theorem C7_current_selection (l : List BiomarkerEntry)
    (hkeys : ∀ e ∈ l, is_empty_biomarker e = false → sortKey e ≠ Option.none) :
    ((∀ e ∈ l, is_empty_biomarker e = true) →
      merge_biomarker_data l = some ⟨emptyCurrent, []⟩) ∧
    (∀ (l₁ : List BiomarkerEntry) (m : BiomarkerEntry) (l₂ : List BiomarkerEntry),
      l.filter (fun b => ! is_empty_biomarker b) = l₁ ++ m :: l₂ →
      (∀ e ∈ l.filter (fun b => ! is_empty_biomarker b),
        strLeb ((sortKey e).getD "") ((sortKey m).getD "") = true) →
      (∀ e ∈ l₁, strLeb ((sortKey m).getD "") ((sortKey e).getD "") = false) →
      merge_biomarker_data l =
        some ⟨mkCurrent (dataOf m),
          build_trend_from_values (l.filter (fun b => ! is_empty_biomarker b))⟩) := by
  constructor
  · intro hall
    have hfe : l.filter (fun b => ! is_empty_biomarker b) = [] := by
      rw [List.filter_eq_nil_iff]
      intro a ha
      rw [hall a ha]
      intro hc
      cases hc
    simp only [merge_biomarker_data]
    rw [if_pos (by rw [hfe]; rfl)]
  · intro l₁ m l₂ hsplit hmax hfirst
    have hv : (l.filter (fun b => ! is_empty_biomarker b)).isEmpty = false := by
      rw [hsplit]
      cases l₁ <;> rfl
    have hall : ∀ e ∈ l.filter (fun b => ! is_empty_biomarker b),
        sortKey e ≠ Option.none := by
      intro e he
      have h1 := List.mem_filter.mp he
      apply hkeys e h1.1
      have h2 := h1.2
      cases h3 : is_empty_biomarker e
      · rfl
      · rw [h3] at h2
        cases h2
    have hsort := sortDescBy_eq_some sortKey _ hall
    rw [hsplit] at hmax
    have hhead : (sortDescP (fun e => (sortKey e).getD "")
        (l.filter (fun b => ! is_empty_biomarker b))).head? = some m := by
      rw [head_sortDescP, hsplit]
      exact firstMaxBy_spec (fun e => (sortKey e).getD "") l₁ m l₂ hmax hfirst
    simp only [merge_biomarker_data]
    rw [if_neg (by rw [hv]; exact Bool.false_ne_true), hsort]
    cases hsp : sortDescP (fun e => (sortKey e).getD "")
        (l.filter (fun b => ! is_empty_biomarker b)) with
    | nil =>
      rw [hsp] at hhead
      cases hhead
    | cons e0 rest =>
      rw [hsp] at hhead
      rw [List.head?_cons] at hhead
      injection hhead with he0
      rw [he0]
      rfl

/-- C7 witness: a concrete list with one empty record and two dated
records; the date-maximal record supplies `current`. -/
theorem C7_current_selection_witness :
    merge_biomarker_data
        [.flat ⟨PyVal.none, PyVal.none, DateField.null, PyVal.none, PyVal.none, ""⟩,
         .flat ⟨PyVal.num 8, PyVal.none, DateField.str "2024-02-02", PyVal.none,
            PyVal.none, ""⟩,
         .flat ⟨PyVal.num 7, PyVal.none, DateField.str "2024-01-01", PyVal.none,
            PyVal.none, ""⟩] =
      some ⟨mkCurrent (dataOf (.flat ⟨PyVal.num 8, PyVal.none,
            DateField.str "2024-02-02", PyVal.none, PyVal.none, ""⟩)),
        build_trend_from_values
          (List.filter (fun b => ! is_empty_biomarker b)
            [.flat ⟨PyVal.none, PyVal.none, DateField.null, PyVal.none, PyVal.none, ""⟩,
             .flat ⟨PyVal.num 8, PyVal.none, DateField.str "2024-02-02", PyVal.none,
                PyVal.none, ""⟩,
             .flat ⟨PyVal.num 7, PyVal.none, DateField.str "2024-01-01", PyVal.none,
                PyVal.none, ""⟩])⟩ :=
  (C7_current_selection _ (by decide)).2 []
    (.flat ⟨PyVal.num 8, PyVal.none, DateField.str "2024-02-02", PyVal.none,
      PyVal.none, ""⟩)
    [.flat ⟨PyVal.num 7, PyVal.none, DateField.str "2024-01-01", PyVal.none,
      PyVal.none, ""⟩]
    (by decide) (by decide) (by decide)

theorem calculate_trend_direction_mem (t : List TrendPoint) :
    calculate_trend_direction t = "increasing" ∨
    calculate_trend_direction t = "decreasing" ∨
    calculate_trend_direction t = "stable" ∨
    calculate_trend_direction t = "insufficient_data" := by
  unfold calculate_trend_direction
  repeat' split
  all_goals decide

theorem calculate_trend_direction_eq (t : List TrendPoint) (p q : TrendPoint)
    (rest : List TrendPoint) (h : t.reverse = p :: q :: rest) :
    calculate_trend_direction t =
      (match pyFloat p.value, pyFloat q.value with
        | some lastV, some prevV =>
          if prevV ≠ 0 then
            if (lastV - prevV) / prevV * 100 > 5 then "increasing"
            else if (lastV - prevV) / prevV * 100 < -5 then "decreasing"
            else "stable"
          else "insufficient_data"
        | _, _ => "insufficient_data") := by
  have hlen : ¬ t.length < 2 := by
    rw [← List.length_reverse, h]
    simp only [List.length_cons]
    omega
  unfold calculate_trend_direction
  rw [if_neg hlen, h]

/-- C9: with at least two trend points, `calculate_trend_direction`
compares the final two values numerically: failed float coercion (e.g.
`"Pending"`) or a zero previous value yields `"insufficient_data"`;
otherwise percent change `(last - prev) / prev * 100` strictly above `5`
yields `"increasing"`, strictly below `-5` yields `"decreasing"`, and
anything else `"stable"`. -/
theorem C9_trend_direction (t : List TrendPoint) (p q : TrendPoint)
    (rest : List TrendPoint) (h : t.reverse = p :: q :: rest) :
    ((pyFloat p.value = Option.none ∨ pyFloat q.value = Option.none) →
      calculate_trend_direction t = "insufficient_data") ∧
    (∀ lastV prevV : Rat, pyFloat p.value = some lastV →
      pyFloat q.value = some prevV →
      ((prevV = 0 → calculate_trend_direction t = "insufficient_data") ∧
       (prevV ≠ 0 →
         calculate_trend_direction t =
           (if (lastV - prevV) / prevV * 100 > 5 then "increasing"
            else if (lastV - prevV) / prevV * 100 < -5 then "decreasing"
            else "stable")))) := by
  rw [calculate_trend_direction_eq t p q rest h]
  constructor
  · intro hnone
    rcases hnone with hp | hq
    · rw [hp]
    · rw [hq]
      cases pyFloat p.value <;> rfl
  · intro lastV prevV hp hq
    rw [hp, hq]
    constructor
    · intro hz
      show (if prevV ≠ 0 then _ else "insufficient_data") = "insufficient_data"
      rw [if_neg (by rw [hz]; exact fun hc => hc rfl)]
    · intro hz
      show (if prevV ≠ 0 then _ else "insufficient_data") = _
      rw [if_pos hz]

/-- C9 witness: the boundary cases `[100, 106] → increasing`,
`[100, 94] → decreasing`, `[100, 103] → stable`, and a `"Pending"` value
that fails float coercion. -/
theorem C9_trend_direction_witness :
    calculate_trend_direction
        [⟨"2024-01-01", PyVal.num 100, PyVal.none, ""⟩,
         ⟨"2024-02-01", PyVal.num 106, PyVal.none, ""⟩] = "increasing" ∧
    calculate_trend_direction
        [⟨"2024-01-01", PyVal.num 100, PyVal.none, ""⟩,
         ⟨"2024-02-01", PyVal.num 94, PyVal.none, ""⟩] = "decreasing" ∧
    calculate_trend_direction
        [⟨"2024-01-01", PyVal.num 100, PyVal.none, ""⟩,
         ⟨"2024-02-01", PyVal.num 103, PyVal.none, ""⟩] = "stable" ∧
    calculate_trend_direction
        [⟨"2024-01-01", PyVal.num 100, PyVal.none, ""⟩,
         ⟨"2024-02-01", PyVal.str "Pending", PyVal.none, ""⟩] = "insufficient_data" := by
  refine ⟨?_, ?_, ?_, ?_⟩
  · rw [((C9_trend_direction
        [⟨"2024-01-01", PyVal.num 100, PyVal.none, ""⟩,
         ⟨"2024-02-01", PyVal.num 106, PyVal.none, ""⟩]
        ⟨"2024-02-01", PyVal.num 106, PyVal.none, ""⟩
        ⟨"2024-01-01", PyVal.num 100, PyVal.none, ""⟩ [] (by decide)).2 106 100 rfl rfl).2
      (by norm_num)]
    norm_num
  · rw [((C9_trend_direction
        [⟨"2024-01-01", PyVal.num 100, PyVal.none, ""⟩,
         ⟨"2024-02-01", PyVal.num 94, PyVal.none, ""⟩]
        ⟨"2024-02-01", PyVal.num 94, PyVal.none, ""⟩
        ⟨"2024-01-01", PyVal.num 100, PyVal.none, ""⟩ [] (by decide)).2 94 100 rfl rfl).2
      (by norm_num)]
    norm_num
  · rw [((C9_trend_direction
        [⟨"2024-01-01", PyVal.num 100, PyVal.none, ""⟩,
         ⟨"2024-02-01", PyVal.num 103, PyVal.none, ""⟩]
        ⟨"2024-02-01", PyVal.num 103, PyVal.none, ""⟩
        ⟨"2024-01-01", PyVal.num 100, PyVal.none, ""⟩ [] (by decide)).2 103 100 rfl rfl).2
      (by norm_num)]
    norm_num
  · exact (C9_trend_direction
      [⟨"2024-01-01", PyVal.num 100, PyVal.none, ""⟩,
       ⟨"2024-02-01", PyVal.str "Pending", PyVal.none, ""⟩]
      ⟨"2024-02-01", PyVal.str "Pending", PyVal.none, ""⟩
      ⟨"2024-01-01", PyVal.num 100, PyVal.none, ""⟩ [] (by decide)).1
      (Or.inl (by decide))

/-- C1 counterexample: a biomarker whose trend has fewer than two points
is formatted with `trend_direction` equal to Python `None`, not the
string `"insufficient_data"` as the claim states (`format_biomarker`
short-circuits with `None` before `calculate_trend_direction` runs). -/
theorem C1_counterexample :
    ((format_for_ui ⟨[("CEA", ⟨emptyCurrent, []⟩)], [], [], []⟩).tumor_markers.map
        (fun pr => pr.2.trend_direction)) = [PyVal.none] ∧
    PyVal.none ≠ PyVal.str "insufficient_data" := by
  constructor
  · rfl
  · decide

/-- C1 (amended): a formatted biomarker's `trend_direction` is Python
`None` exactly when the trend has fewer than 2 points; with at least 2
points it is one of the four strings `increasing`, `decreasing`,
`stable`, `insufficient_data` — and this holds for every biomarker of
every panel of `format_for_ui`'s output. -/
theorem C1_trend_direction_values (b : ConsolidatedBiomarker) (name : String) :
    (b.trend.length < 2 →
      (format_biomarker b name).trend_direction = PyVal.none) ∧
    (2 ≤ b.trend.length →
      (format_biomarker b name).trend_direction ∈
        [PyVal.str "increasing", PyVal.str "decreasing", PyVal.str "stable",
          PyVal.str "insufficient_data"]) ∧
    (∀ (r : PostResult) (n : String) (fb : FormattedBiomarker),
      (n, fb) ∈ (format_for_ui r).tumor_markers ++
        (format_for_ui r).complete_blood_count ++
        (format_for_ui r).metabolic_panel →
      fb.trend.length < 2 → fb.trend_direction = PyVal.none) := by
  refine ⟨?_, ?_, ?_⟩
  · intro h
    show (if b.trend.length ≥ 2 then PyVal.str (calculate_trend_direction b.trend)
      else PyVal.none) = PyVal.none
    rw [if_neg (by omega)]
  · intro h
    show (if b.trend.length ≥ 2 then PyVal.str (calculate_trend_direction b.trend)
      else PyVal.none) ∈ _
    rw [if_pos h]
    rcases calculate_trend_direction_mem b.trend with h1 | h1 | h1 | h1 <;>
      rw [h1] <;> simp
  · intro r n fb hmem hlen
    have hfb : ∃ pr : String × ConsolidatedBiomarker,
        fb = format_biomarker pr.2 pr.1 := by
      rcases List.mem_append.mp hmem with hm | hm
      · rcases List.mem_append.mp hm with hm1 | hm1
        · obtain ⟨pr, _, hpr⟩ := List.mem_map.mp hm1
          exact ⟨pr, (congrArg Prod.snd hpr).symm⟩
        · obtain ⟨pr, _, hpr⟩ := List.mem_map.mp hm1
          exact ⟨pr, (congrArg Prod.snd hpr).symm⟩
      · obtain ⟨pr, _, hpr⟩ := List.mem_map.mp hm
        exact ⟨pr, (congrArg Prod.snd hpr).symm⟩
    obtain ⟨pr, hpr⟩ := hfb
    have htr : fb.trend = pr.2.trend := by
      rw [hpr]
      rfl
    rw [hpr]
    show (if pr.2.trend.length ≥ 2 then
      PyVal.str (calculate_trend_direction pr.2.trend) else PyVal.none) = PyVal.none
    rw [htr] at hlen
    have hlen2 : pr.2.trend.length < 2 := hlen
    rw [if_neg (by omega)]

/-- C1 witness: a trend with zero points formats to a `None`
`trend_direction`; one with two points formats to one of the four
strings. -/
theorem C1_trend_direction_values_witness :
    (format_biomarker ⟨emptyCurrent, []⟩ "WBC").trend_direction = PyVal.none ∧
    (format_biomarker ⟨emptyCurrent,
        [⟨"2024-01-01", PyVal.num 100, PyVal.none, ""⟩,
         ⟨"2024-02-01", PyVal.num 106, PyVal.none, ""⟩]⟩ "CEA").trend_direction ∈
      [PyVal.str "increasing", PyVal.str "decreasing", PyVal.str "stable",
        PyVal.str "insufficient_data"] :=
  ⟨(C1_trend_direction_values ⟨emptyCurrent, []⟩ "WBC").1 (by decide),
   (C1_trend_direction_values ⟨emptyCurrent,
      [⟨"2024-01-01", PyVal.num 100, PyVal.none, ""⟩,
       ⟨"2024-02-01", PyVal.num 106, PyVal.none, ""⟩]⟩ "CEA").2.1 (by decide)⟩

/-- C3 counterexample: under the default `use_ai_refinement=True` with a
nonempty clinical interpretation list, the pipeline's output depends on
the generative-model response (the oracle): two runs on the same input
with different model responses return different results, so the claimed
"no hidden state and no I/O" determinism fails. -/
theorem C3_counterexample :
    postprocess_lab_data [⟨.other, .other, .other, .list ["Mild anemia."]⟩] true
        (some ["a", "b", "c", "d"]) ≠
      postprocess_lab_data [⟨.other, .other, .other, .list ["Mild anemia."]⟩] true
        (some ["e", "f", "g", "h"]) := by
  decide

/-- C3 (amended): with `use_ai_refinement=False` the pipeline is a pure
function of its input — the result is independent of the model-response
oracle — and the same holds under `use_ai_refinement=True` whenever the
consolidated clinical interpretations are empty (the model is then never
invoked). -/
theorem C3_determinism (batches : List Batch) (o₁ o₂ : Option (List String)) :
    postprocess_lab_data batches false o₁ = postprocess_lab_data batches false o₂ ∧
    (consolidate_clinical_interpretations (extractInterps batches) = [] →
      postprocess_lab_data batches true o₁ = postprocess_lab_data batches true o₂) := by
  constructor
  · rfl
  · intro h
    simp [postprocess_lab_data, h]

/-- C3 witness: concrete runs with different oracles agree when the AI
refinement is disabled, and when there are no interpretations. -/
theorem C3_determinism_witness :
    postprocess_lab_data [⟨.other, .other, .other, .list ["Mild anemia."]⟩] false
        (some ["a", "b", "c", "d"]) =
      postprocess_lab_data [⟨.other, .other, .other, .list ["Mild anemia."]⟩] false
        (some ["e", "f", "g", "h"]) ∧
    postprocess_lab_data [⟨.other, .other, .other, .other⟩] true
        (some ["a", "b", "c", "d"]) =
      postprocess_lab_data [⟨.other, .other, .other, .other⟩] true
        (some ["e", "f", "g", "h"]) :=
  ⟨(C3_determinism [⟨.other, .other, .other, .list ["Mild anemia."]⟩]
      (some ["a", "b", "c", "d"]) (some ["e", "f", "g", "h"])).1,
   (C3_determinism [⟨.other, .other, .other, .other⟩]
      (some ["a", "b", "c", "d"]) (some ["e", "f", "g", "h"])).2 (by decide)⟩

theorem merge_all_empty {es : List BiomarkerEntry}
    (h : ∀ e ∈ es, is_empty_biomarker e = true) :
    merge_biomarker_data es = some ⟨emptyCurrent, []⟩ := by
  have hfe : es.filter (fun b => ! is_empty_biomarker b) = [] := by
    rw [List.filter_eq_nil_iff]
    intro a ha
    rw [h a ha]
    intro hc
    cases hc
  simp only [merge_biomarker_data]
  rw [if_pos (by rw [hfe]; rfl)]

theorem consolidate_panel_spec (panels : List Panel) :
    ∀ (names : List String) (out : List (String × ConsolidatedBiomarker)),
      consolidate_panel panels names = some out →
      (∀ pr ∈ out, pr.1 ∈ names) ∧
      (∀ name, collectEntries panels name = [] → ∀ pr ∈ out, pr.1 ≠ name) ∧
      (∀ name ∈ names, collectEntries panels name ≠ [] →
        (∀ e ∈ collectEntries panels name, is_empty_biomarker e = true) →
        (name, (⟨emptyCurrent, []⟩ : ConsolidatedBiomarker)) ∈ out)
  | [], out, hout => by
    injection hout with h1
    subst h1
    refine ⟨?_, ?_, ?_⟩
    · intro pr hpr
      cases hpr
    · intro name _ pr hpr
      cases hpr
    · intro name hname
      cases hname
  | n :: rest, out, hout => by
    by_cases hc : (collectEntries panels n).isEmpty = true
    · simp only [consolidate_panel] at hout
      rw [if_pos hc] at hout
      obtain ⟨hk, ha, hb⟩ := consolidate_panel_spec panels rest out hout
      refine ⟨?_, ha, ?_⟩
      · intro pr hpr
        exact List.mem_cons_of_mem _ (hk pr hpr)
      · intro name hname hne hempty
        rcases List.mem_cons.mp hname with h1 | h1
        · subst h1
          exact absurd (List.isEmpty_iff.mp hc) hne
        · exact hb name h1 hne hempty
    · simp only [consolidate_panel] at hout
      rw [if_neg hc] at hout
      cases hm : merge_biomarker_data (collectEntries panels n) with
      | none =>
        rw [hm] at hout
        simp at hout
      | some m =>
        cases ht : consolidate_panel panels rest with
        | none =>
          rw [hm, ht] at hout
          simp at hout
        | some tail =>
          rw [hm, ht] at hout
          simp only [Option.bind_eq_bind, Option.some_bind, Option.some.injEq] at hout
          subst hout
          obtain ⟨hk, ha, hb⟩ := consolidate_panel_spec panels rest tail ht
          refine ⟨?_, ?_, ?_⟩
          · intro pr hpr
            rcases List.mem_cons.mp hpr with h1 | h1
            · rw [h1]
              exact List.mem_cons_self _ _
            · exact List.mem_cons_of_mem _ (hk pr h1)
          · intro name hnil pr hpr
            rcases List.mem_cons.mp hpr with h1 | h1
            · rw [h1]
              intro hc2
              have hn : n = name := hc2
              rw [← hn] at hnil
              rw [hnil] at hc
              exact hc rfl
            · exact ha name hnil pr h1
          · intro name hname hne hempty
            rcases List.mem_cons.mp hname with h1 | h1
            · subst h1
              have hme := merge_all_empty hempty
              rw [hme] at hm
              injection hm with h2
              rw [← h2]
              exact List.mem_cons_self _ _
            · exact List.mem_cons_of_mem _ (hb name h1 hne hempty)

/-- C8: whenever `consolidate_panel` returns, a known biomarker name that
is absent from every input panel dict does not appear in the output; a
known name present in at least one dict whose collected records are all
empty appears with the canonical empty current and an empty trend; and no
key outside the known-name list ever appears. -/
theorem C8_unseen_vs_empty (panels : List Panel) (names : List String)
    (out : List (String × ConsolidatedBiomarker))
    (hout : consolidate_panel panels names = some out) (name : String) :
    ((∀ p ∈ panels, lookupName name p = Option.none) → ∀ pr ∈ out, pr.1 ≠ name) ∧
    (name ∈ names → (∃ p ∈ panels, (lookupName name p).isSome) →
      (∀ e ∈ collectEntries panels name, is_empty_biomarker e = true) →
      (name, (⟨emptyCurrent, []⟩ : ConsolidatedBiomarker)) ∈ out) ∧
    (∀ pr ∈ out, pr.1 ∈ names) := by
  obtain ⟨hk, ha, hb⟩ := consolidate_panel_spec panels names out hout
  refine ⟨?_, ?_, hk⟩
  · intro habs
    apply ha
    show panels.filterMap (fun p => lookupName name p) = []
    rw [List.filterMap_eq_nil_iff]
    exact habs
  · intro hname hpres hempty
    refine hb name hname ?_ hempty
    obtain ⟨p, hp, hps⟩ := hpres
    intro hnil
    obtain ⟨e, he⟩ := Option.isSome_iff_exists.mp hps
    have hme : e ∈ collectEntries panels name :=
      List.mem_filterMap.mpr ⟨p, hp, he⟩
    rw [hnil] at hme
    cases hme

/-- C8 witness: with one panel dict holding only an empty `CEA` record
and known names `CEA, NSE`: `NSE` (never seen) is absent from the output
while `CEA` (seen but empty) appears with the empty shape. -/
theorem C8_unseen_vs_empty_witness :
    (∀ pr ∈ [("CEA", (⟨emptyCurrent, []⟩ : ConsolidatedBiomarker))], pr.1 ≠ "NSE") ∧
    ("CEA", (⟨emptyCurrent, []⟩ : ConsolidatedBiomarker)) ∈
      [("CEA", (⟨emptyCurrent, []⟩ : ConsolidatedBiomarker))] :=
  ⟨(C8_unseen_vs_empty
      [[("CEA", .flat ⟨PyVal.none, PyVal.none, DateField.miss, PyVal.none, PyVal.none, ""⟩)]]
      ["CEA", "NSE"] [("CEA", ⟨emptyCurrent, []⟩)] (by decide) "NSE").1 (by decide),
   (C8_unseen_vs_empty
      [[("CEA", .flat ⟨PyVal.none, PyVal.none, DateField.miss, PyVal.none, PyVal.none, ""⟩)]]
      ["CEA", "NSE"] [("CEA", ⟨emptyCurrent, []⟩)] (by decide) "CEA").2.1
      (by decide) (by decide) (by decide)⟩

/-- Replace the nested trend array of a legacy-shaped entry by `[]`,
leaving everything else unchanged. -/
def stripNestedTrend : BiomarkerEntry → BiomarkerEntry
  | .flat r => .flat r
  | .nested cur _ => .nested cur []

theorem dataOf_strip (e : BiomarkerEntry) :
    dataOf (stripNestedTrend e) = dataOf e := by
  cases e <;> rfl

theorem trendStep_strip (s : List (TrendKey × TrendPoint)) (e : BiomarkerEntry) :
    trendStep s (stripNestedTrend e) = trendStep s e := by
  cases e <;> rfl

theorem is_empty_strip (e : BiomarkerEntry) :
    is_empty_biomarker (stripNestedTrend e) = is_empty_biomarker e := by
  cases e <;> rfl

theorem sortKey_strip (e : BiomarkerEntry) :
    sortKey (stripNestedTrend e) = sortKey e := by
  cases e <;> rfl

theorem foldl_trendStep_strip :
    ∀ (l : List BiomarkerEntry) (s : List (TrendKey × TrendPoint)),
      (l.map stripNestedTrend).foldl trendStep s = l.foldl trendStep s
  | [], _ => rfl
  | e :: rest, s => by
    simp only [List.map_cons, List.foldl_cons, trendStep_strip]
    exact foldl_trendStep_strip rest _

theorem build_trend_strip (l : List BiomarkerEntry) :
    build_trend_from_values (l.map stripNestedTrend) = build_trend_from_values l := by
  unfold build_trend_from_values
  rw [foldl_trendStep_strip]

theorem insertDescBy_strip (x : BiomarkerEntry) :
    ∀ acc : List BiomarkerEntry,
      insertDescBy sortKey (stripNestedTrend x) (acc.map stripNestedTrend) =
        Option.map (List.map stripNestedTrend) (insertDescBy sortKey x acc)
  | [] => by
    simp only [List.map_nil, insertDescBy, Option.map_some]
    rfl
  | y :: ys => by
    simp only [List.map_cons, insertDescBy, sortKey_strip]
    cases hx : keyVal (sortKey x) with
    | none => rfl
    | some kx =>
      cases hy : keyVal (sortKey y) with
      | none => rfl
      | some ky =>
        simp only [Option.bind_eq_bind, Option.some_bind]
        cases hc : strLeb kx ky with
        | true =>
          simp only [if_true]
          rw [insertDescBy_strip x ys]
          cases insertDescBy sortKey x ys with
          | none => rfl
          | some r => rfl
        | false =>
          simp only [Bool.false_eq_true, if_false]
          rfl

theorem sortDescBy_strip (l : List BiomarkerEntry) :
    sortDescBy sortKey (l.map stripNestedTrend) =
      Option.map (List.map stripNestedTrend) (sortDescBy sortKey l) := by
  suffices hs : ∀ (l acc : List BiomarkerEntry),
      (l.map stripNestedTrend).foldlM (fun acc x => insertDescBy sortKey x acc)
          (acc.map stripNestedTrend) =
        Option.map (List.map stripNestedTrend)
          (l.foldlM (fun acc x => insertDescBy sortKey x acc) acc) by
    exact hs l []
  intro l2
  induction l2 with
  | nil =>
    intro acc
    rfl
  | cons x xs ih =>
    intro acc
    simp only [List.map_cons, List.foldlM_cons]
    rw [insertDescBy_strip x acc]
    cases insertDescBy sortKey x acc with
    | none => rfl
    | some r =>
      simp only [Option.map_some, Option.bind_eq_bind, Option.some_bind]
      exact ih r

theorem merge_strip (l : List BiomarkerEntry) :
    merge_biomarker_data (l.map stripNestedTrend) = merge_biomarker_data l := by
  have hfilter : (l.map stripNestedTrend).filter (fun b => ! is_empty_biomarker b) =
      (l.filter (fun b => ! is_empty_biomarker b)).map stripNestedTrend := by
    rw [List.filter_map]
    congr 1
    apply List.filter_congr
    intro a _
    simp only [Function.comp_apply, is_empty_strip]
  simp only [merge_biomarker_data, hfilter]
  have hie : ((l.filter (fun b => ! is_empty_biomarker b)).map
      stripNestedTrend).isEmpty = (l.filter (fun b => ! is_empty_biomarker b)).isEmpty := by
    cases l.filter (fun b => ! is_empty_biomarker b) <;> rfl
  rw [hie]
  by_cases hv : (l.filter (fun b => ! is_empty_biomarker b)).isEmpty = true
  · rw [if_pos hv, if_pos hv]
  · rw [if_neg hv, if_neg hv]
    rw [sortDescBy_strip, build_trend_strip]
    cases sortDescBy sortKey (l.filter (fun b => ! is_empty_biomarker b)) with
    | none => rfl
    | some sorted =>
      cases sorted with
      | nil => rfl
      | cons e0 rest => cases e0 <;> rfl

/-- C10: both the emptiness classifier and the whole consolidation read
only the nested `current` sub-record of a legacy-shaped entry; replacing
every nested trend array by `[]` changes neither `is_empty_biomarker` nor
`build_trend_from_values` nor `merge_biomarker_data`, so the nested trend
points never reach the consolidated output. -/
theorem C10_legacy_trend_ignored (l : List BiomarkerEntry)
    (cur : BiomarkerRecord) (tr : List BiomarkerRecord) :
    is_empty_biomarker (.nested cur tr) = is_empty_biomarker (.nested cur []) ∧
    build_trend_from_values (l.map stripNestedTrend) = build_trend_from_values l ∧
    merge_biomarker_data (l.map stripNestedTrend) = merge_biomarker_data l := by
  exact ⟨rfl, build_trend_strip l, merge_strip l⟩

end LabPostprocessor
